import Mathlib

/-!
SharedPointer: a reference-counted handle.

A shallow embedding of `SharedPointer.cpp`.

* Pointers are natural numbers, `0` being `nullptr`.  A non-null block pointer
  `a` designates the `a`-th block ever allocated by `new`; the pointer to the
  value embedded in a block is the identity of that block's object, so casts
  between views of one object keep the number.
* `unsigned int` is a natural number below `UINT_MODULUS`; `++` and `--` wrap.
* The free store is explicit.  Every function that touches it returns an
  `Option`: `none` is undefined behaviour (a read or write through a null or
  dangling pointer).
* Of the text written by `printState` only the memory reads are kept, and each
  `delete` is recorded in `Heap.destructed`.
-/

namespace SharedPtr

/-! ## Data model -/

/-- One more than the largest `unsigned int` (32 bits wide). -/
def UINT_MODULUS : Nat := 4294967296

/-- The object of type `T` held by a block: the classes it is an instance of
(its own class and the bases a `dynamic_cast` may reach) and its contents. -/
structure Value where
  classes : List Nat
  payload : Int
  deriving DecidableEq, Repr

/-- The `struct SharedBlockBase`. -/
structure SharedBlockBase where
  referencingPointersNum : Nat := 0
  deriving DecidableEq, Repr

/-- The `struct SharedBlock<T> : SharedBlockBase`. -/
structure SharedBlock extends SharedBlockBase where
  value : Value
  deriving DecidableEq, Repr

/-- The free store.  `blocks[a - 1]` is the cell of block pointer `a`:
`some b` while the block is allocated, `none` once it has been deleted.
`destructed` lists the deleted block pointers, oldest first. -/
structure Heap where
  blocks : List (Option SharedBlock)
  destructed : List Nat
  deriving DecidableEq, Repr

/-- The `class SharedPointer<T>`: its two data members. -/
structure SharedPointer where
  sPointer : Nat := 0
  sharedBlock : Nat := 0
  deriving DecidableEq, Repr

/-! ## The free store -/

/-- Read through a block pointer: `none` for `nullptr`, for a pointer that was
never allocated and for a deleted block. -/
def Heap.deref (m : Heap) (a : Nat) : Option SharedBlock :=
  if a = 0 then none else (m.blocks[a - 1]?).join

/-- Overwrite the cell of an allocated block. -/
def Heap.store (m : Heap) (a : Nat) (b : SharedBlock) : Heap :=
  { m with blocks := m.blocks.set (a - 1) (some b) }

/-- Expression `new SharedBlock<Type>(...)`: a fresh cell, and the pointer to it.
The free store is unbounded: `new` does not fail. -/
def Heap.alloc (m : Heap) (b : SharedBlock) : Heap × Nat :=
  ({ m with blocks := m.blocks ++ [some b] }, m.blocks.length + 1)

/-- Statement `delete sharedBlock`, through the `SharedBlockBase*`: the cell
(count and value together) is gone, and the deletion is recorded. -/
def Heap.delete (m : Heap) (a : Nat) : Heap :=
  { blocks := m.blocks.set (a - 1) none, destructed := m.destructed ++ [a] }

/-- Expression `&theSharedBlock->value`. -/
def addressOfValue (a : Nat) : Nat := a

/-- Expression `static_cast<T*>(p)` between related types: the same object, `nullptr` for
`nullptr`. -/
def static_cast (p : Nat) : Nat := p

/-- Operator `++` on an `unsigned int`: the largest value wraps to `0`. -/
def preIncrement (n : Nat) : Nat := (n + 1) % UINT_MODULUS

/-- Operator `--` on an `unsigned int`: `0` wraps to the largest value. -/
def preDecrement (n : Nat) : Nat := if n = 0 then UINT_MODULUS - 1 else n - 1

/-! ## Member functions of `SharedPointer` -/

namespace SharedPointer

/-- Member `printState`: reads `sharedBlock->referencingPointersNum` when `sPointer`
is non-null. -/
def printState (m : Heap) (this : SharedPointer) : Option Unit :=
  if this.sPointer ≠ 0 then (m.deref this.sharedBlock).map (fun _ => ()) else some ()

/-- Member `resetPointers`. -/
def resetPointers (_this : SharedPointer) : SharedPointer :=
  { sPointer := 0, sharedBlock := 0 }

/-- Member `retain`. -/
def retain (m : Heap) (this : SharedPointer) : Option Heap := do
  printState m this
  let m1 ←
    if this.sharedBlock ≠ 0 then do
      let b ← m.deref this.sharedBlock
      pure (m.store this.sharedBlock
        { b with referencingPointersNum := preIncrement b.referencingPointersNum })
    else pure m
  printState m1 this
  pure m1

/-- Member `release`. -/
def release (m : Heap) (this : SharedPointer) : Option (Heap × SharedPointer) := do
  printState m this
  let (m1, this1) ←
    if this.sharedBlock ≠ 0 then do
      let b ← m.deref this.sharedBlock
      let n := preDecrement b.referencingPointersNum
      let mStored := m.store this.sharedBlock { b with referencingPointersNum := n }
      if n = 0 then do
        let mDeleted := mStored.delete this.sharedBlock
        let thisCleared := resetPointers this
        printState mDeleted thisCleared
        pure (mDeleted, thisCleared)
      else pure (mStored, this)
    else pure (m, this)
  printState m1 this1
  pure (m1, this1)

/-- The private constructor `SharedPointer(T* inPointer, SharedBlockBase* inNewSharedBlock)`. -/
def construct (m : Heap) (inPointer inNewSharedBlock : Nat) :
    Option (Heap × SharedPointer) := do
  let this : SharedPointer := { sPointer := inPointer, sharedBlock := inNewSharedBlock }
  printState m this
  let m1 ← retain m this
  printState m1 this
  pure (m1, this)

/-- Member `assign`.  (The source ends in `return this;`; the handle assigned to is
what is returned here.) -/
def assign (m : Heap) (this : SharedPointer) (inPointer inSharedBlock : Nat) :
    Option (Heap × SharedPointer) := do
  printState m this
  let (m1, _) ← release m this
  let this2 : SharedPointer := { sPointer := inPointer, sharedBlock := inSharedBlock }
  let m2 ← retain m1 this2
  printState m2 this2
  pure (m2, this2)

/-- Section `[1]`: default construction. -/
def defaultConstruct (m : Heap) : Option (Heap × SharedPointer) :=
  construct m 0 0

/-- Section `[2]`: copy construction from a `SharedPointer<OtherT>`. -/
def copyConstructOther (m : Heap) (inOther : SharedPointer) : Option (Heap × SharedPointer) :=
  construct m (static_cast inOther.sPointer) inOther.sharedBlock

/-- Section `[2]`: copy construction from a `SharedPointer<T>`. -/
def copyConstruct (m : Heap) (inOther : SharedPointer) : Option (Heap × SharedPointer) :=
  construct m inOther.sPointer inOther.sharedBlock

/-- Section `[3]`: `reset`. -/
def reset (m : Heap) (this : SharedPointer) : Option (Heap × SharedPointer) := do
  printState m this
  let (m1, this1) ← release m this
  let this2 := resetPointers this1
  printState m1 this2
  pure (m1, this2)

/-- Section `[3]`: `operator=` from a `SharedPointer<OtherT>`.  The two arguments of
`assign` are read from `inOther` before `assign` runs. -/
def operatorAssignOther (m : Heap) (this inOther : SharedPointer) :
    Option (Heap × SharedPointer) :=
  assign m this (static_cast inOther.sPointer) inOther.sharedBlock

/-- Section `[3]`: `operator=` from a `SharedPointer<T>`. -/
def operatorAssign (m : Heap) (this inOther : SharedPointer) :
    Option (Heap × SharedPointer) :=
  assign m this inOther.sPointer inOther.sharedBlock

/-- Section `[4]`: `operator->`. -/
def operatorArrow (this : SharedPointer) : Nat := this.sPointer

/-- Section `[4]`: `operator*`, the value `sPointer` points at. -/
def operatorStar (m : Heap) (this : SharedPointer) : Option Value :=
  (m.deref this.sPointer).map (fun b => b.value)

/-- Section `[5]`: `operator==`, for both overloads. -/
def operatorEq (this inOther : SharedPointer) : Bool :=
  this.sPointer == inOther.sPointer

/-- Section `[5]`: `operator bool`. -/
def operatorBool (this : SharedPointer) : Bool :=
  this.sPointer != 0

/-- Section `[6]`: the destructor; the fields it leaves behind are returned with the heap. -/
def destructor (m : Heap) (this : SharedPointer) : Option (Heap × SharedPointer) := do
  printState m this
  let (m1, this1) ← release m this
  printState m1 this1
  pure (m1, this1)

end SharedPointer

open SharedPointer

/-- Function `makeShared<Type>(inArgs...)`; `v` is the object built from `inArgs`. -/
def makeShared (m : Heap) (v : Value) : Option (Heap × SharedPointer) :=
  let (m1, theSharedBlock) := m.alloc { referencingPointersNum := 0, value := v }
  construct m1 (addressOfValue theSharedBlock) theSharedBlock

/-- Expression `dynamic_cast<ToType*>(p)`.  A null pointer casts to null; otherwise the
object is inspected, and the result is `p` when the object is a `ToType` and
null when it is not. -/
def dynamic_cast (m : Heap) (toType : Nat) (p : Nat) : Option Nat :=
  if p = 0 then some 0
  else (m.deref p).map (fun b => if toType ∈ b.value.classes then p else 0)

/-- Function `sharedDynamicCast<ToType>(inPointer)`. -/
def sharedDynamicCast (m : Heap) (toType : Nat)
    (inPointer : SharedPointer) : Option (Heap × SharedPointer) := do
  let theCastedPointer ← dynamic_cast m toType inPointer.sPointer
  let theSharedBlock := if theCastedPointer ≠ 0 then inPointer.sharedBlock else 0
  construct m theCastedPointer theSharedBlock



/-! ## Programs: handles that live in named variables -/

/-- A program state: the free store and the handle objects declared so far.
`handles[i]` is `some h` while handle `i` is alive and `none` after its
destructor has run. -/
structure State where
  heap : Heap
  handles : List (Option SharedPointer)
  deriving DecidableEq, Repr

/-- The state in which `main` starts. -/
def State.init : State := { heap := { blocks := [], destructed := [] }, handles := [] }

/-- The fields of handle `i`, when it is alive. -/
def State.handle (s : State) (i : Nat) : Option SharedPointer := (s.handles[i]?).join

/-- A handle slot holds a live handle whose `sharedBlock` is `a`. -/
def pointsAt (a : Nat) (h : Option SharedPointer) : Bool :=
  h.any (fun p => p.sharedBlock == a)

/-- The number of live handles whose `sharedBlock` is `a`. -/
def State.refs (s : State) (a : Nat) : Nat :=
  s.handles.countP (pointsAt a)

/-- A new handle object, with the fields and the heap its constructor left. -/
def State.declare (s : State) (r : Heap × SharedPointer) : State :=
  { heap := r.1, handles := s.handles ++ [some r.2] }

/-- Handle `i` after a member function ran on it. -/
def State.update (s : State) (i : Nat) (r : Heap × SharedPointer) : State :=
  { heap := r.1, handles := s.handles.set i (some r.2) }

/-- Handle `i` after its destructor ran: the object is gone. -/
def State.retire (s : State) (i : Nat) (r : Heap × SharedPointer) : State :=
  { heap := r.1, handles := s.handles.set i none }

/-- The public operations on handles. -/
inductive Op where
  | defaultConstruct
  | makeShared (v : Value)
  | copyConstruct (src : Nat)
  | copyConstructOther (src : Nat)
  | assign (dst src : Nat)
  | assignOther (dst src : Nat)
  | reset (i : Nat)
  | sharedDynamicCast (toType : Nat) (src : Nat)
  | destroy (i : Nat)
  deriving DecidableEq, Repr

/-- One operation.  `none` when it names a handle that is not alive or when
the member function it calls has undefined behaviour. -/
def step (s : State) : Op → Option State
  | .defaultConstruct => (defaultConstruct s.heap).map s.declare
  | .makeShared v => (makeShared s.heap v).map s.declare
  | .copyConstruct src => do
      let inOther ← s.handle src
      (copyConstruct s.heap inOther).map s.declare
  | .copyConstructOther src => do
      let inOther ← s.handle src
      (copyConstructOther s.heap inOther).map s.declare
  | .assign dst src => do
      let this ← s.handle dst
      let inOther ← s.handle src
      (operatorAssign s.heap this inOther).map (s.update dst)
  | .assignOther dst src => do
      let this ← s.handle dst
      let inOther ← s.handle src
      (operatorAssignOther s.heap this inOther).map (s.update dst)
  | .reset i => do
      let this ← s.handle i
      (reset s.heap this).map (s.update i)
  | .sharedDynamicCast toType src => do
      let inPointer ← s.handle src
      (sharedDynamicCast s.heap toType inPointer).map s.declare
  | .destroy i => do
      let this ← s.handle i
      (destructor s.heap this).map (s.retire i)

/-- A sequence of operations, left to right. -/
def run : List Op → State → Option State
  | [], s => some s
  | op :: ops, s => (step s op).bind (run ops)

/-- The positions of the handles an operation works on: the handle it assigns,
resets or destroys, and the handle it copies, assigns or casts from. -/
def Op.operands : Op → List Nat
  | .defaultConstruct => []
  | .makeShared _ => []
  | .copyConstruct src => [src]
  | .copyConstructOther src => [src]
  | .assign dst src => [dst, src]
  | .assignOther dst src => [dst, src]
  | .reset i => [i]
  | .sharedDynamicCast _ src => [src]
  | .destroy i => [i]

/-- The position of the one handle an operation writes, in a program with `n`
handles declared so far: the handle it assigns, resets or destroys, or else the
handle it constructs, which is declared at position `n`. -/
def Op.target (n : Nat) : Op → Nat
  | .assign dst _ => dst
  | .assignOther dst _ => dst
  | .reset i => i
  | .destroy i => i
  | _ => n

/-- The sources of a chain of copies: with `k` handles made so far, the first
copy is taken from one of them (its position is below `k`), the next from one of
the `k + 1` handles there are then, and so on. -/
def validSources : Nat → List Nat → Prop
  | _, [] => True
  | k, j :: js => j < k ∧ validSources (k + 1) js

/-- The `k` handles declared from position `base` on all hold the fields `h`,
no handle was declared after them, and the block of `h` is allocated, holds `v`
and has the count that `k` increments of `0` give. -/
structure SharedBy (s : State) (base k : Nat) (h : SharedPointer) (v : Value) : Prop where
  block : s.heap.deref h.sharedBlock =
    some { referencingPointersNum := k % UINT_MODULUS, value := v }
  count : s.handles.length = base + k
  owners : ∀ i, i < k → s.handle (base + i) = some h

/-- The free store that `release` leaves when run on a handle whose block, at
`a`, is allocated and holds `b`. -/
def Heap.released (m : Heap) (a : Nat) (b : SharedBlock) : Heap :=
  if preDecrement b.referencingPointersNum = 0 then m.delete a
  else m.store a { b with referencingPointersNum := preDecrement b.referencingPointersNum }

/-- The count invariant of a program state: the count of every allocated block
is the number of live handles that reference it, as an `unsigned int`; no handle
holds a block pointer that `new` has not returned yet; every recorded deletion is
of a block that was allocated and is now gone; no block was deleted twice. -/
structure Consistent (s : State) : Prop where
  counts : ∀ a b, s.heap.deref a = some b →
    b.referencingPointersNum = s.refs a % UINT_MODULUS
  bounded : ∀ i h, s.handle i = some h → h.sharedBlock ≤ s.heap.blocks.length
  deleted : ∀ a, a ∈ s.heap.destructed → a ≤ s.heap.blocks.length ∧ s.heap.deref a = none
  once : s.heap.destructed.Nodup

/-- From `s` to `s1` nothing was deleted, the handles declared before position
`base` kept their fields, and every block other than `a` is as it was. -/
structure Untouched (s s1 : State) (base a : Nat) : Prop where
  destructed : s1.heap.destructed = s.heap.destructed
  handles : ∀ i, i < base → s1.handle i = s.handle i
  blocks : ∀ a', a' ≠ a → s1.heap.deref a' = s.heap.deref a'

/-! ## The free store: reading after writing -/

theorem Heap.deref_zero (m : Heap) : m.deref 0 = none := by
  simp [Heap.deref]

theorem Heap.ne_zero_of_deref {m : Heap} {a : Nat} {b : SharedBlock}
    (h : m.deref a = some b) : a ≠ 0 := by
  intro h0
  rw [h0, Heap.deref_zero] at h
  exact Option.noConfusion h

theorem Heap.le_length_of_deref {m : Heap} {a : Nat} {b : SharedBlock}
    (h : m.deref a = some b) : a ≤ m.blocks.length := by
  unfold Heap.deref at h
  split at h
  · exact Option.noConfusion h
  · by_contra hlt
    have : m.blocks[a - 1]? = none := List.getElem?_eq_none (by omega)
    rw [this] at h
    exact Option.noConfusion h

theorem Heap.deref_store (m : Heap) (a : Nat) (b : SharedBlock) (a' : Nat)
    (h : (m.deref a).isSome) :
    (m.store a b).deref a' = if a' = a then some b else m.deref a' := by
  obtain ⟨c, hc⟩ := Option.isSome_iff_exists.mp h
  have ha := Heap.ne_zero_of_deref hc
  have hl := Heap.le_length_of_deref hc
  unfold Heap.deref Heap.store
  by_cases h0 : a' = 0
  · subst h0
    simp [Ne.symm ha]
  · by_cases e : a' = a
    · subst e
      have hlt : a' - 1 < m.blocks.length := by omega
      simp [h0, List.getElem?_set, hlt]
    · have : a - 1 ≠ a' - 1 := by omega
      simp [h0, e, List.getElem?_set, this]

theorem Heap.deref_delete (m : Heap) (a a' : Nat) (ha : a ≠ 0) :
    (m.delete a).deref a' = if a' = a then none else m.deref a' := by
  unfold Heap.deref Heap.delete
  by_cases h0 : a' = 0
  · subst h0
    simp
  · by_cases e : a' = a
    · subst e
      simp [h0, List.getElem?_set]
    · have : a - 1 ≠ a' - 1 := by omega
      simp [h0, e, List.getElem?_set, this]

theorem Heap.deref_alloc (m : Heap) (b : SharedBlock) (a' : Nat) :
    (m.alloc b).1.deref a' = if a' = m.blocks.length + 1 then some b else m.deref a' := by
  unfold Heap.deref Heap.alloc
  by_cases h0 : a' = 0
  · subst h0
    simp
  · by_cases e : a' = m.blocks.length + 1
    · subst e
      simp
    · simp only [h0, e, if_false]
      by_cases hlt : a' - 1 < m.blocks.length
      · rw [List.getElem?_append_left hlt]
      · have h1 : (m.blocks ++ [some b])[a' - 1]? = none :=
          List.getElem?_eq_none (by simp; omega)
        have h2 : m.blocks[a' - 1]? = none := List.getElem?_eq_none (by omega)
        rw [h1, h2]

/-! ## The member functions in closed form -/

namespace SharedPointer

theorem printState_eq (m : Heap) (this : SharedPointer) :
    printState m this =
      if this.sPointer = 0 then some () else (m.deref this.sharedBlock).map (fun _ => ()) := by
  unfold printState
  by_cases h : this.sPointer = 0 <;> simp [h]

theorem printState_of_deref {m : Heap} {this : SharedPointer} {b : SharedBlock}
    (h : m.deref this.sharedBlock = some b) : printState m this = some () := by
  rw [printState_eq, h]
  split <;> rfl

theorem printState_of_null {m : Heap} {this : SharedPointer}
    (h : this.sPointer = 0) : printState m this = some () := by
  rw [printState_eq, if_pos h]

theorem printState_eq_none {m : Heap} {this : SharedPointer}
    (hp : this.sPointer ≠ 0) (h : m.deref this.sharedBlock = none) :
    printState m this = none := by
  rw [printState_eq, if_neg hp, h]
  rfl

/-- What `retain` does, by cases on what `sharedBlock` points at. -/
theorem retain_eq (m : Heap) (this : SharedPointer) :
    retain m this =
      match m.deref this.sharedBlock with
      | some b => some (m.store this.sharedBlock
          { b with referencingPointersNum := preIncrement b.referencingPointersNum })
      | none => if this.sPointer = 0 ∧ this.sharedBlock = 0 then some m else none := by
  cases hb : m.deref this.sharedBlock with
  | some b =>
    have ha := Heap.ne_zero_of_deref hb
    have h2 : (m.store this.sharedBlock
        { b with referencingPointersNum := preIncrement b.referencingPointersNum }).deref
        this.sharedBlock = some
        { b with referencingPointersNum := preIncrement b.referencingPointersNum } := by
      rw [Heap.deref_store _ _ _ _ (by simp [hb]), if_pos rfl]
    simp only [retain, printState_of_deref hb, ha, hb, ne_eq, not_false_eq_true, if_true,
      Option.bind_eq_bind, Option.some_bind, Option.pure_def, printState_of_deref h2]
  | none =>
    by_cases hp : this.sPointer = 0
    · by_cases ha : this.sharedBlock = 0
      · simp only [retain, printState_of_null hp, ha, hp, ne_eq, not_true_eq_false, if_false,
          Option.bind_eq_bind, Option.some_bind, Option.pure_def, and_self, if_true]
      · simp only [retain, printState_of_null hp, ha, hb, ne_eq, not_false_eq_true, if_true,
          Option.bind_eq_bind, Option.some_bind, Option.none_bind, and_false, if_false]
    · simp only [retain, printState_eq_none hp hb, hp, Option.bind_eq_bind, Option.none_bind,
        false_and, if_false]

/-- What `release` does, by cases on what `sharedBlock` points at. -/
theorem release_eq (m : Heap) (this : SharedPointer) :
    release m this =
      match m.deref this.sharedBlock with
      | some b =>
        some (if preDecrement b.referencingPointersNum = 0
          then (m.delete this.sharedBlock, { sPointer := 0, sharedBlock := 0 })
          else (m.store this.sharedBlock
            { b with referencingPointersNum := preDecrement b.referencingPointersNum }, this))
      | none => if this.sPointer = 0 ∧ this.sharedBlock = 0 then some (m, this) else none := by
  cases hb : m.deref this.sharedBlock with
  | some b =>
    have ha := Heap.ne_zero_of_deref hb
    have h2 : (m.store this.sharedBlock
        { b with referencingPointersNum := preDecrement b.referencingPointersNum }).deref
        this.sharedBlock = some
        { b with referencingPointersNum := preDecrement b.referencingPointersNum } := by
      rw [Heap.deref_store _ _ _ _ (by simp [hb]), if_pos rfl]
    have h3 : ∀ c : SharedBlock, (m.store this.sharedBlock c).delete this.sharedBlock
        = m.delete this.sharedBlock := by
      intro c
      simp only [Heap.store, Heap.delete, List.set_set]
    by_cases hz : preDecrement b.referencingPointersNum = 0
    · simp only [release, printState_of_deref hb, ha, hb, hz, h3, resetPointers, ne_eq,
        not_false_eq_true, if_true, Option.bind_eq_bind, Option.some_bind, Option.pure_def,
        printState_of_null]
    · simp only [release, printState_of_deref hb, ha, hb, hz, ne_eq, not_false_eq_true,
        if_true, if_false, Option.bind_eq_bind, Option.some_bind, Option.pure_def,
        printState_of_deref h2]
  | none =>
    by_cases hp : this.sPointer = 0
    · by_cases ha : this.sharedBlock = 0
      · simp only [release, printState_of_null hp, ha, hp, ne_eq, not_true_eq_false, if_false,
          Option.bind_eq_bind, Option.some_bind, Option.pure_def, and_self, if_true]
      · simp only [release, printState_of_null hp, ha, hb, ne_eq, not_false_eq_true, if_true,
          Option.bind_eq_bind, Option.some_bind, Option.none_bind, and_false, if_false]
    · simp only [release, printState_eq_none hp hb, hp, Option.bind_eq_bind, Option.none_bind,
        false_and, if_false]

theorem printState_after_retain {m m' : Heap} {this : SharedPointer}
    (h : retain m this = some m') : printState m' this = some () := by
  rw [retain_eq] at h
  cases hb : m.deref this.sharedBlock with
  | some b =>
    rw [hb] at h
    simp only [Option.some.injEq] at h
    subst h
    have h2 := Heap.deref_store m this.sharedBlock
        { b with referencingPointersNum := preIncrement b.referencingPointersNum }
        this.sharedBlock (by simp [hb])
    rw [if_pos rfl] at h2
    exact printState_of_deref h2
  | none =>
    rw [hb] at h
    simp only at h
    split at h
    · rename_i hn
      exact printState_of_null hn.1
    · exact Option.noConfusion h

theorem printState_after_release {m : Heap} {this : SharedPointer} {r : Heap × SharedPointer}
    (h : release m this = some r) : printState r.1 r.2 = some () := by
  rw [release_eq] at h
  cases hb : m.deref this.sharedBlock with
  | some b =>
    rw [hb] at h
    simp only [Option.some.injEq] at h
    subst h
    split
    · exact printState_of_null rfl
    · have h2 := Heap.deref_store m this.sharedBlock
        { b with referencingPointersNum := preDecrement b.referencingPointersNum }
        this.sharedBlock (by simp [hb])
      rw [if_pos rfl] at h2
      exact printState_of_deref h2
  | none =>
    rw [hb] at h
    simp only at h
    split at h
    · rename_i hn
      simp only [Option.some.injEq] at h
      subst h
      exact printState_of_null hn.1
    · exact Option.noConfusion h

theorem printState_before_release {m : Heap} {this : SharedPointer} {r : Heap × SharedPointer}
    (h : release m this = some r) : printState m this = some () := by
  cases hp : printState m this with
  | some u => rfl
  | none =>
    unfold release at h
    rw [hp] at h
    exact Option.noConfusion h

theorem printState_before_retain {m m' : Heap} {this : SharedPointer}
    (h : retain m this = some m') : printState m this = some () := by
  cases hp : printState m this with
  | some u => rfl
  | none =>
    unfold retain at h
    rw [hp] at h
    exact Option.noConfusion h

/-- The private constructor is `retain` on the new fields. -/
theorem construct_eq (m : Heap) (inPointer inNewSharedBlock : Nat) :
    construct m inPointer inNewSharedBlock =
      (retain m { sPointer := inPointer, sharedBlock := inNewSharedBlock }).map
        (fun m1 => (m1, { sPointer := inPointer, sharedBlock := inNewSharedBlock })) := by
  unfold construct
  cases hr : retain m { sPointer := inPointer, sharedBlock := inNewSharedBlock } with
  | some m1 =>
    simp only [printState_before_retain hr, printState_after_retain hr, hr,
      Option.bind_eq_bind, Option.some_bind, Option.pure_def, Option.map_some']
  | none =>
    simp only [Option.bind_eq_bind, Option.map_none', hr, Option.none_bind]
    cases printState m { sPointer := inPointer, sharedBlock := inNewSharedBlock } <;> rfl

/-- The destructor is `release`. -/
theorem destructor_eq (m : Heap) (this : SharedPointer) :
    destructor m this = release m this := by
  unfold destructor
  cases hr : release m this with
  | some r =>
    simp only [printState_before_release hr, printState_after_release hr, hr,
      Option.bind_eq_bind, Option.some_bind, Option.pure_def]
  | none =>
    simp only [Option.bind_eq_bind, hr, Option.none_bind]
    cases printState m this <;> rfl

/-- Member `reset` is `release` followed by clearing both fields. -/
theorem reset_eq (m : Heap) (this : SharedPointer) :
    reset m this =
      (release m this).map (fun r => (r.1, { sPointer := 0, sharedBlock := 0 })) := by
  unfold reset
  cases hr : release m this with
  | some r =>
    simp only [printState_before_release hr, resetPointers, printState_of_null, hr,
      Option.bind_eq_bind, Option.some_bind, Option.pure_def, Option.map_some']
  | none =>
    simp only [Option.bind_eq_bind, Option.map_none', hr, Option.none_bind]
    cases printState m this <;> rfl

/-- Member `assign` is `release` of the old fields followed by `retain` of the new ones. -/
theorem assign_eq (m : Heap) (this : SharedPointer) (inPointer inSharedBlock : Nat) :
    assign m this inPointer inSharedBlock =
      (release m this).bind (fun r =>
        (retain r.1 { sPointer := inPointer, sharedBlock := inSharedBlock }).map
          (fun m2 => (m2, { sPointer := inPointer, sharedBlock := inSharedBlock }))) := by
  unfold assign
  cases hr : release m this with
  | some r =>
    simp only [printState_before_release hr, hr, Option.bind_eq_bind, Option.some_bind]
    cases hr2 : retain r.1 { sPointer := inPointer, sharedBlock := inSharedBlock } with
    | some m2 =>
      simp only [printState_after_retain hr2, hr2, Option.some_bind, Option.pure_def,
        Option.map_some']
    | none => simp only [hr2, Option.none_bind, Option.map_none']
  | none =>
    simp only [Option.bind_eq_bind, Option.none_bind, hr]
    cases printState m this <;> rfl

end SharedPointer

/-- Function `makeShared` always succeeds: one new block with count `1`, and a handle on it. -/
theorem makeShared_eq (m : Heap) (v : Value) :
    makeShared m v =
      some ({ m with blocks := m.blocks ++ [some { referencingPointersNum := 1, value := v }] },
        { sPointer := m.blocks.length + 1, sharedBlock := m.blocks.length + 1 }) := by
  have hd := Heap.deref_alloc m { referencingPointersNum := 0, value := v } (m.blocks.length + 1)
  rw [if_pos rfl] at hd
  unfold makeShared
  simp only [construct_eq, addressOfValue]
  rw [retain_eq]
  simp only [Heap.alloc] at hd ⊢
  rw [hd]
  simp only [Option.map_some', Heap.store, preIncrement, UINT_MODULUS]
  simp

/-! ## Counter arithmetic -/

theorem preIncrement_mod (k : Nat) :
    preIncrement (k % UINT_MODULUS) = (k + 1) % UINT_MODULUS := by
  simp only [preIncrement, UINT_MODULUS]
  omega

theorem preIncrement_of_lt {k : Nat} (h : k + 1 < UINT_MODULUS) : preIncrement k = k + 1 := by
  simp only [preIncrement, UINT_MODULUS] at *
  omega

theorem preDecrement_succ_mod {n : Nat} (h : n + 1 ≤ UINT_MODULUS) :
    preDecrement ((n + 1) % UINT_MODULUS) = n := by
  simp only [preDecrement, UINT_MODULUS] at *
  split <;> omega

/-- On values of an `unsigned int`, `preDecrement` is subtraction modulo `2^32`. -/
theorem preDecrement_eq_mod {n : Nat} (h : n < UINT_MODULUS) :
    preDecrement n = (n + (UINT_MODULUS - 1)) % UINT_MODULUS := by
  simp only [preDecrement, UINT_MODULUS] at *
  split <;> omega

theorem preDecrement_of_pos {k : Nat} (h : 0 < k) : preDecrement k = k - 1 := by
  simp only [preDecrement]
  rw [if_neg (by omega)]

theorem mod_of_lt_modulus {n : Nat} (h : n < UINT_MODULUS) : n % UINT_MODULUS = n :=
  Nat.mod_eq_of_lt h

/-! ## Handles of a program state -/

theorem State.handle_lt_length {s : State} {i : Nat} {h : SharedPointer}
    (hi : s.handle i = some h) : i < s.handles.length := by
  by_contra hlt
  have : s.handles[i]? = none := List.getElem?_eq_none (by omega)
  simp [State.handle, this] at hi

theorem State.handle_declare_lt (s : State) (r : Heap × SharedPointer) {j : Nat}
    (hj : j < s.handles.length) : (s.declare r).handle j = s.handle j := by
  simp only [State.handle, State.declare]
  rw [List.getElem?_append_left hj]

theorem State.handle_declare_length (s : State) (r : Heap × SharedPointer) :
    (s.declare r).handle s.handles.length = some r.2 := by
  simp [State.handle, State.declare]

theorem State.handle_retire_ne (s : State) (r : Heap × SharedPointer) {i j : Nat}
    (hj : j ≠ i) : (s.retire i r).handle j = s.handle j := by
  simp only [State.handle, State.retire]
  rw [List.getElem?_set_ne (Ne.symm hj)]

theorem State.handle_retire_self (s : State) (r : Heap × SharedPointer) (i : Nat) :
    (s.retire i r).handle i = none := by
  simp only [State.handle, State.retire, List.getElem?_set, if_true]
  by_cases hi : i < s.handles.length
  · rw [if_pos hi]
    rfl
  · rw [if_neg hi]
    rfl

theorem State.handle_update_ne (s : State) (r : Heap × SharedPointer) {i j : Nat}
    (hj : j ≠ i) : (s.update i r).handle j = s.handle j := by
  simp only [State.handle, State.update]
  rw [List.getElem?_set_ne (Ne.symm hj)]

theorem State.handle_update_self (s : State) (r : Heap × SharedPointer) {i : Nat}
    (hi : i < s.handles.length) : (s.update i r).handle i = some r.2 := by
  simp [State.handle, State.update, List.getElem?_set, hi]

/-! ## Single steps in closed form -/

theorem step_copyConstruct {s : State} {src : Nat} {h : SharedPointer} {b : SharedBlock}
    (hh : s.handle src = some h) (hb : s.heap.deref h.sharedBlock = some b) :
    step s (.copyConstruct src) = some (s.declare
      (s.heap.store h.sharedBlock
        { b with referencingPointersNum := preIncrement b.referencingPointersNum }, h)) := by
  simp only [step, hh, copyConstruct, construct_eq, retain_eq, hb, Option.bind_eq_bind,
    Option.some_bind, Option.map_some']

theorem step_destroy {s : State} {i : Nat} {h : SharedPointer} {b : SharedBlock}
    (hh : s.handle i = some h) (hb : s.heap.deref h.sharedBlock = some b) :
    step s (.destroy i) = some (s.retire i
      (if preDecrement b.referencingPointersNum = 0
        then (s.heap.delete h.sharedBlock, { sPointer := 0, sharedBlock := 0 })
        else (s.heap.store h.sharedBlock
          { b with referencingPointersNum := preDecrement b.referencingPointersNum }, h))) := by
  simp only [step, hh, destructor_eq, release_eq, hb, Option.bind_eq_bind,
    Option.some_bind, Option.map_some']

/-! ## One block shared by `N` handles -/

theorem step_makeShared (s : State) (v : Value) :
    step s (.makeShared v) = some (s.declare
      ((s.heap.alloc { referencingPointersNum := 1, value := v }).1,
        { sPointer := s.heap.blocks.length + 1, sharedBlock := s.heap.blocks.length + 1 })) := by
  simp only [step, makeShared_eq, Option.map_some']
  rfl

theorem sharedBy_makeShared (s : State) (v : Value) :
    SharedBy (s.declare ((s.heap.alloc { referencingPointersNum := 1, value := v }).1,
        { sPointer := s.heap.blocks.length + 1, sharedBlock := s.heap.blocks.length + 1 }))
      s.handles.length 1
      { sPointer := s.heap.blocks.length + 1, sharedBlock := s.heap.blocks.length + 1 } v := by
  refine ⟨?_, ?_, ?_⟩
  · show (s.heap.alloc _).1.deref (s.heap.blocks.length + 1) = _
    rw [Heap.deref_alloc, if_pos rfl]
    rfl
  · simp [State.declare]
  · intro i hi
    have : i = 0 := by omega
    subst this
    exact State.handle_declare_length s _

theorem Untouched.refl (s : State) (base a : Nat) : Untouched s s base a :=
  ⟨rfl, fun _ _ => rfl, fun _ _ => rfl⟩

theorem Untouched.trans {s s1 s2 : State} {base a : Nat}
    (h1 : Untouched s s1 base a) (h2 : Untouched s1 s2 base a) : Untouched s s2 base a :=
  ⟨h2.destructed.trans h1.destructed,
    fun i hi => (h2.handles i hi).trans (h1.handles i hi),
    fun a' ha' => (h2.blocks a' ha').trans (h1.blocks a' ha')⟩

theorem sharedBy_copyConstruct {s : State} {base k : Nat} {h : SharedPointer} {v : Value}
    (hs : SharedBy s base k h v) {j : Nat} (hj : j < k) :
    ∃ s1, step s (.copyConstruct (base + j)) = some s1 ∧ SharedBy s1 base (k + 1) h v ∧
      Untouched s s1 base h.sharedBlock := by
  refine ⟨_, step_copyConstruct (hs.owners j hj) hs.block, ⟨?_, ?_, ?_⟩, ⟨rfl, ?_, ?_⟩⟩
  · show (s.heap.store _ _).deref h.sharedBlock = _
    rw [Heap.deref_store _ _ _ _ (by simp [hs.block]), if_pos rfl, preIncrement_mod]
  · simp [State.declare, hs.count]
    omega
  · intro i hi
    by_cases hik : i < k
    · rw [State.handle_declare_lt _ _ (by rw [hs.count]; omega)]
      exact hs.owners i hik
    · have : base + i = s.handles.length := by rw [hs.count]; omega
      rw [this]
      exact State.handle_declare_length s _
  · intro i hi
    exact State.handle_declare_lt _ _ (by rw [hs.count]; omega)
  · intro a' ha'
    show (s.heap.store _ _).deref a' = _
    rw [Heap.deref_store _ _ _ _ (by simp [hs.block]), if_neg ha']

theorem sharedBy_copies (base : Nat) (h : SharedPointer) (v : Value) :
    ∀ (srcs : List Nat) (k : Nat) (s : State), SharedBy s base k h v → validSources k srcs →
      ∃ s1, run (srcs.map (fun j => Op.copyConstruct (base + j))) s = some s1 ∧
        SharedBy s1 base (k + srcs.length) h v ∧ Untouched s s1 base h.sharedBlock := by
  intro srcs
  induction srcs with
  | nil =>
    intro k s hs _
    exact ⟨s, rfl, hs, Untouched.refl _ _ _⟩
  | cons j js ih =>
    intro k s hs hv
    obtain ⟨s1, h1, hs1, hd1⟩ := sharedBy_copyConstruct hs hv.1
    obtain ⟨s2, h2, hs2, hd2⟩ := ih (k + 1) s1 hs1 hv.2
    refine ⟨s2, ?_, ?_, hd1.trans hd2⟩
    · simp only [List.map_cons, run, h1, Option.some_bind, h2]
    · have : k + (j :: js).length = k + 1 + js.length := by simp; omega
      rw [this]
      exact hs2

theorem Heap.destructed_delete (m : Heap) (a : Nat) :
    (m.delete a).destructed = m.destructed ++ [a] := rfl

/-- The destructor of one of `n + 1` owners: the block survives with count `n`
when `n` is not zero and is deleted when `n` is zero. -/
theorem sharedBy_destroy {s : State} {h : SharedPointer} {v : Value} {i n : Nat}
    (hb : s.heap.deref h.sharedBlock =
      some { referencingPointersNum := (n + 1) % UINT_MODULUS, value := v })
    (hn : n + 1 ≤ UINT_MODULUS) (hi : s.handle i = some h) :
    ∃ s1, step s (.destroy i) = some s1 ∧ (∀ j, j ≠ i → s1.handle j = s.handle j) ∧
      (n ≠ 0 → s1.heap.deref h.sharedBlock =
          some { referencingPointersNum := n % UINT_MODULUS, value := v } ∧
        s1.heap.destructed = s.heap.destructed) ∧
      (n = 0 → s1.heap.deref h.sharedBlock = none ∧
        s1.heap.destructed = s.heap.destructed ++ [h.sharedBlock]) := by
  have ha := Heap.ne_zero_of_deref hb
  refine ⟨_, step_destroy hi hb, fun j hj => State.handle_retire_ne _ _ hj, ?_, ?_⟩
  · intro h0
    have hne : preDecrement ((n + 1) % UINT_MODULUS) ≠ 0 := by
      rw [preDecrement_succ_mod hn]
      exact h0
    simp only [if_neg hne, State.retire]
    refine ⟨?_, rfl⟩
    rw [Heap.deref_store _ _ _ _ (by simp [hb]), if_pos rfl, preDecrement_succ_mod hn,
      mod_of_lt_modulus (by omega)]
  · intro h0
    have he : preDecrement ((n + 1) % UINT_MODULUS) = 0 := by
      rw [preDecrement_succ_mod hn]
      exact h0
    simp only [if_pos he, State.retire]
    refine ⟨?_, rfl⟩
    rw [Heap.deref_delete _ _ _ ha, if_pos rfl]

/-- Destructors run on owners of one block, in any order.  After a part `pre`
of the owners, with `post` still to go, the block is allocated and nothing was
deleted; after all of them the block is deleted, once. -/
theorem sharedBy_destroyAll (h : SharedPointer) (v : Value) :
    ∀ (pre post : List Nat) (s : State), (pre ++ post).Nodup →
      (pre ++ post).length ≤ UINT_MODULUS →
      s.heap.deref h.sharedBlock =
        some { referencingPointersNum := (pre ++ post).length % UINT_MODULUS, value := v } →
      (∀ i ∈ pre ++ post, s.handle i = some h) →
      ∃ s1, run (pre.map Op.destroy) s = some s1 ∧
        (post ≠ [] → s1.heap.deref h.sharedBlock =
            some { referencingPointersNum := post.length % UINT_MODULUS, value := v } ∧
          s1.heap.destructed = s.heap.destructed ∧ ∀ i ∈ post, s1.handle i = some h) ∧
        (post = [] → pre ≠ [] → s1.heap.deref h.sharedBlock = none ∧
          s1.heap.destructed = s.heap.destructed ++ [h.sharedBlock]) := by
  intro pre
  induction pre with
  | nil =>
    intro post s _ _ hb hh
    exact ⟨s, rfl, fun _ => ⟨hb, rfl, hh⟩, fun _ hne => absurd rfl hne⟩
  | cons i pre ih =>
    intro post s hnd hlen hb hh
    rw [List.cons_append] at hnd hlen hb hh
    have hi := hh i (List.mem_cons_self _ _)
    rw [List.length_cons] at hlen hb
    obtain ⟨s1, h1, hframe, hpos, hzero⟩ := sharedBy_destroy hb hlen hi
    have hnotin : i ∉ pre ++ post := (List.nodup_cons.mp hnd).1
    by_cases h0 : (pre ++ post).length = 0
    · have hnil : pre ++ post = [] := List.length_eq_zero.mp h0
      have hpre : pre = [] := (List.append_eq_nil.mp hnil).1
      have hpost : post = [] := (List.append_eq_nil.mp hnil).2
      subst hpre
      refine ⟨s1, ?_, fun hne => absurd hpost hne, fun _ _ => hzero h0⟩
      simp only [List.map_cons, List.map_nil, run, h1, Option.some_bind]
    · obtain ⟨hb1, hd1⟩ := hpos h0
      have hh1 : ∀ j ∈ pre ++ post, s1.handle j = some h := by
        intro j hj
        rw [hframe j (fun e => hnotin (e ▸ hj))]
        exact hh j (List.mem_cons_of_mem _ hj)
      obtain ⟨s2, h2, hA, hB⟩ :=
        ih post s1 (List.nodup_cons.mp hnd).2 (by omega) hb1 hh1
      refine ⟨s2, ?_, ?_, ?_⟩
      · simp only [List.map_cons, run, h1, Option.some_bind, h2]
      · intro hne
        obtain ⟨x, y, z⟩ := hA hne
        exact ⟨x, y.trans hd1, z⟩
      · intro hpost _
        by_cases hpre : pre = []
        · subst hpre
          subst hpost
          exact absurd rfl h0
        · obtain ⟨x, y⟩ := hB hpost hpre
          exact ⟨x, by rw [y, hd1]⟩

theorem validSources_replicate_zero (n : Nat) :
    ∀ k, 0 < k → validSources k (List.replicate n 0) := by
  induction n with
  | zero => intro k _; exact trivial
  | succ n ih => intro k hk; exact ⟨hk, ih (k + 1) (Nat.succ_pos k)⟩

theorem untouched_makeShared (s : State) (v : Value) :
    Untouched s (s.declare ((s.heap.alloc { referencingPointersNum := 1, value := v }).1,
        { sPointer := s.heap.blocks.length + 1, sharedBlock := s.heap.blocks.length + 1 }))
      s.handles.length (s.heap.blocks.length + 1) := by
  refine ⟨rfl, fun i hi => State.handle_declare_lt _ _ hi, fun a' ha' => ?_⟩
  show (s.heap.alloc _).1.deref a' = _
  rw [Heap.deref_alloc, if_neg ha']

/-- The state after `makeShared` and a chain of copies. -/
theorem sharedBy_build (s : State) (v : Value) (srcs : List Nat) (hsrc : validSources 1 srcs) :
    ∃ s1, run (Op.makeShared v ::
        srcs.map (fun j => Op.copyConstruct (s.handles.length + j))) s = some s1 ∧
      SharedBy s1 s.handles.length (1 + srcs.length)
        { sPointer := s.heap.blocks.length + 1, sharedBlock := s.heap.blocks.length + 1 } v ∧
      Untouched s s1 s.handles.length (s.heap.blocks.length + 1) := by
  obtain ⟨s1, h1, hs1, hd1⟩ := sharedBy_copies s.handles.length
    { sPointer := s.heap.blocks.length + 1, sharedBlock := s.heap.blocks.length + 1 } v srcs 1 _
    (sharedBy_makeShared s v) hsrc
  refine ⟨s1, ?_, hs1, (untouched_makeShared s v).trans hd1⟩
  simp only [run, step_makeShared, Option.some_bind, h1]

/-- The state after `makeShared` and `n` copies of the handle it returned. -/
theorem sharedBy_build_replicate (s : State) (v : Value) (n : Nat) :
    ∃ s1, run (Op.makeShared v ::
        List.replicate n (Op.copyConstruct s.handles.length)) s = some s1 ∧
      SharedBy s1 s.handles.length (1 + n)
        { sPointer := s.heap.blocks.length + 1, sharedBlock := s.heap.blocks.length + 1 } v ∧
      Untouched s s1 s.handles.length (s.heap.blocks.length + 1) := by
  obtain ⟨s1, h1, hs1, hd1⟩ := sharedBy_build s v (List.replicate n 0)
    (validSources_replicate_zero _ 1 Nat.one_pos)
  have hmap : (List.replicate n 0).map (fun j => Op.copyConstruct (s.handles.length + j))
      = List.replicate n (Op.copyConstruct s.handles.length) := List.map_replicate
  rw [hmap] at h1
  rw [List.length_replicate] at hs1
  exact ⟨s1, h1, hs1, hd1⟩

/-! ## Assignment between handles of two blocks -/

theorem State.refs_pos_of_handle {s : State} {i : Nat} {h : SharedPointer}
    (hi : s.handle i = some h) : 1 ≤ s.refs h.sharedBlock := by
  have hlt := State.handle_lt_length hi
  have hget : s.handles[i] = some h := by
    have h2 : s.handles[i]? = some (s.handles[i]) := List.getElem?_eq_getElem hlt
    simp only [State.handle, h2] at hi
    exact hi
  have hmem : some h ∈ s.handles := hget ▸ List.getElem_mem hlt
  exact List.countP_pos_iff.mpr ⟨some h, hmem, by simp [pointsAt]⟩

theorem Heap.deref_released_ne (m : Heap) {a a' : Nat} {b : SharedBlock}
    (hb : m.deref a = some b) (hne : a' ≠ a) : (m.released a b).deref a' = m.deref a' := by
  unfold Heap.released
  split
  · rw [Heap.deref_delete _ _ _ (Heap.ne_zero_of_deref hb), if_neg hne]
  · rw [Heap.deref_store _ _ _ _ (by simp [hb]), if_neg hne]

theorem Heap.destructed_released (m : Heap) (a : Nat) (b : SharedBlock) :
    (m.released a b).destructed =
      if preDecrement b.referencingPointersNum = 0 then m.destructed ++ [a]
      else m.destructed := by
  unfold Heap.released
  split <;> rfl

theorem Heap.deref_released_self (m : Heap) {a : Nat} {b : SharedBlock}
    (hb : m.deref a = some b) :
    (m.released a b).deref a =
      if preDecrement b.referencingPointersNum = 0 then none
      else some { b with referencingPointersNum := preDecrement b.referencingPointersNum } := by
  unfold Heap.released
  split
  · rw [Heap.deref_delete _ _ _ (Heap.ne_zero_of_deref hb), if_pos rfl]
  · rw [Heap.deref_store _ _ _ _ (by simp [hb]), if_pos rfl]

/-! ## Casts and `reset` -/

theorem dynamic_cast_eq_some {m : Heap} {toType q p : Nat}
    (hc : dynamic_cast m toType q = some p) (hp : p ≠ 0) : p = q ∧ q ≠ 0 := by
  unfold dynamic_cast at hc
  split at hc
  · exact absurd (Option.some.inj hc).symm hp
  · rename_i hq
    cases hd : m.deref q with
    | none =>
      rw [hd] at hc
      exact Option.noConfusion hc
    | some b =>
      rw [hd] at hc
      simp only [Option.map_some', Option.some.injEq] at hc
      split at hc
      · exact ⟨hc.symm, hq⟩
      · exact absurd hc.symm hp

theorem step_cast_of_success {s : State} {toType src : Nat} {h : SharedPointer}
    {b : SharedBlock} (hh : s.handle src = some h)
    (hc : dynamic_cast s.heap toType h.sPointer = some h.sPointer) (hp : h.sPointer ≠ 0)
    (hb : s.heap.deref h.sharedBlock = some b) :
    step s (.sharedDynamicCast toType src) = some (s.declare
      (s.heap.store h.sharedBlock
        { b with referencingPointersNum := preIncrement b.referencingPointersNum },
        { sPointer := h.sPointer, sharedBlock := h.sharedBlock })) := by
  simp only [step, hh, sharedDynamicCast, hc, hp, construct_eq, retain_eq, hb, ne_eq,
    not_false_eq_true, if_true, Option.bind_eq_bind, Option.some_bind, Option.map_some']

theorem step_cast_of_failure {s : State} {toType src : Nat} {h : SharedPointer}
    (hh : s.handle src = some h) (hc : dynamic_cast s.heap toType h.sPointer = some 0) :
    step s (.sharedDynamicCast toType src) =
      some (s.declare (s.heap, { sPointer := 0, sharedBlock := 0 })) := by
  simp only [step, hh, sharedDynamicCast, hc, construct_eq, retain_eq, Heap.deref_zero, ne_eq,
    not_true_eq_false, if_false, and_self, if_true, Option.bind_eq_bind, Option.some_bind,
    Option.map_some']

theorem step_reset_of_deref {s : State} {i : Nat} {h : SharedPointer} {b : SharedBlock}
    (hh : s.handle i = some h) (hb : s.heap.deref h.sharedBlock = some b) :
    step s (.reset i) = some (s.update i
      (s.heap.released h.sharedBlock b, { sPointer := 0, sharedBlock := 0 })) := by
  have hrel : release s.heap h = some (s.heap.released h.sharedBlock b,
      if preDecrement b.referencingPointersNum = 0
        then { sPointer := 0, sharedBlock := 0 } else h) := by
    rw [release_eq, hb]
    simp only [Heap.released]
    split <;> rfl
  simp only [step, hh, reset_eq, hrel, Option.bind_eq_bind, Option.some_bind, Option.map_some']

/-! ## What a call that returns has done -/

theorem retain_some {m m' : Heap} {this : SharedPointer} (h : retain m this = some m') :
    (this.sPointer = 0 ∧ this.sharedBlock = 0 ∧ m' = m) ∨
    (∃ b, m.deref this.sharedBlock = some b ∧ m' = m.store this.sharedBlock
      { b with referencingPointersNum := preIncrement b.referencingPointersNum }) := by
  rw [retain_eq] at h
  cases hb : m.deref this.sharedBlock with
  | some b =>
    rw [hb] at h
    exact Or.inr ⟨b, rfl, (Option.some.inj h).symm⟩
  | none =>
    rw [hb] at h
    simp only at h
    split at h
    · rename_i hn
      exact Or.inl ⟨hn.1, hn.2, (Option.some.inj h).symm⟩
    · exact Option.noConfusion h

theorem release_some {m : Heap} {this : SharedPointer} {r : Heap × SharedPointer}
    (h : release m this = some r) :
    (this.sPointer = 0 ∧ this.sharedBlock = 0 ∧ r.1 = m) ∨
    (∃ b, m.deref this.sharedBlock = some b ∧ r.1 = m.released this.sharedBlock b) := by
  rw [release_eq] at h
  cases hb : m.deref this.sharedBlock with
  | some b =>
    rw [hb] at h
    refine Or.inr ⟨b, rfl, ?_⟩
    rw [← Option.some.inj h]
    unfold Heap.released
    split <;> rfl
  | none =>
    rw [hb] at h
    simp only at h
    split at h
    · rename_i hn
      refine Or.inl ⟨hn.1, hn.2, ?_⟩
      rw [← Option.some.inj h]
    · exact Option.noConfusion h

theorem construct_some {m : Heap} {p a : Nat} {r : Heap × SharedPointer}
    (h : construct m p a = some r) :
    retain m { sPointer := p, sharedBlock := a } = some r.1 ∧
      r.2 = { sPointer := p, sharedBlock := a } := by
  rw [construct_eq] at h
  cases hr : retain m { sPointer := p, sharedBlock := a } with
  | none =>
    rw [hr] at h
    exact Option.noConfusion h
  | some m1 =>
    rw [hr] at h
    have := Option.some.inj h
    subst this
    exact ⟨rfl, rfl⟩

theorem assign_some {m : Heap} {this : SharedPointer} {p a : Nat} {r : Heap × SharedPointer}
    (h : assign m this p a = some r) :
    ∃ r1, release m this = some r1 ∧
      retain r1.1 { sPointer := p, sharedBlock := a } = some r.1 ∧
      r.2 = { sPointer := p, sharedBlock := a } := by
  rw [assign_eq] at h
  cases hr : release m this with
  | none =>
    rw [hr] at h
    exact Option.noConfusion h
  | some r1 =>
    rw [hr] at h
    simp only [Option.some_bind] at h
    cases hr2 : retain r1.1 { sPointer := p, sharedBlock := a } with
    | none =>
      rw [hr2] at h
      exact Option.noConfusion h
    | some m2 =>
      rw [hr2] at h
      have := Option.some.inj h
      subst this
      exact ⟨r1, rfl, hr2, rfl⟩

theorem reset_some {m : Heap} {this : SharedPointer} {r : Heap × SharedPointer}
    (h : reset m this = some r) :
    ∃ r1, release m this = some r1 ∧ r = (r1.1, { sPointer := 0, sharedBlock := 0 }) := by
  rw [reset_eq] at h
  cases hr : release m this with
  | none =>
    rw [hr] at h
    exact Option.noConfusion h
  | some r1 =>
    rw [hr] at h
    exact ⟨r1, rfl, (Option.some.inj h).symm⟩

theorem sharedDynamicCast_some {m : Heap} {toType : Nat} {inPointer : SharedPointer}
    {r : Heap × SharedPointer} (h : sharedDynamicCast m toType inPointer = some r) :
    ∃ p, dynamic_cast m toType inPointer.sPointer = some p ∧
      (p = 0 ∨ (p = inPointer.sPointer ∧ inPointer.sPointer ≠ 0)) ∧
      construct m p (if p ≠ 0 then inPointer.sharedBlock else 0) = some r := by
  unfold sharedDynamicCast at h
  cases hc : dynamic_cast m toType inPointer.sPointer with
  | none =>
    rw [hc] at h
    exact Option.noConfusion h
  | some p =>
    rw [hc] at h
    refine ⟨p, rfl, ?_, h⟩
    by_cases hp : p = 0
    · exact Or.inl hp
    · exact Or.inr (dynamic_cast_eq_some hc hp)

theorem State.handle_declare_some {s : State} {r : Heap × SharedPointer} {i : Nat}
    {h : SharedPointer} (hi : (s.declare r).handle i = some h) :
    s.handle i = some h ∨ (i = s.handles.length ∧ h = r.2) := by
  by_cases hlt : i < s.handles.length
  · rw [State.handle_declare_lt _ _ hlt] at hi
    exact Or.inl hi
  · have hlen := State.handle_lt_length hi
    simp only [State.declare, List.length_append, List.length_singleton] at hlen
    have : i = s.handles.length := by omega
    subst this
    rw [State.handle_declare_length] at hi
    exact Or.inr ⟨rfl, (Option.some.inj hi).symm⟩

theorem State.handle_update_some {s : State} {r : Heap × SharedPointer} {i j : Nat}
    {h : SharedPointer} (hj : (s.update i r).handle j = some h) :
    s.handle j = some h ∨ (j = i ∧ h = r.2) := by
  by_cases hji : j = i
  · subst hji
    have hlen := State.handle_lt_length hj
    simp only [State.update, List.length_set] at hlen
    rw [State.handle_update_self _ _ hlen] at hj
    exact Or.inr ⟨rfl, (Option.some.inj hj).symm⟩
  · rw [State.handle_update_ne _ _ hji] at hj
    exact Or.inl hj

theorem State.handle_retire_some {s : State} {r : Heap × SharedPointer} {i j : Nat}
    {h : SharedPointer} (hj : (s.retire i r).handle j = some h) :
    s.handle j = some h ∧ j ≠ i := by
  by_cases hji : j = i
  · subst hji
    rw [State.handle_retire_self] at hj
    exact Option.noConfusion hj
  · rw [State.handle_retire_ne _ _ hji] at hj
    exact ⟨hj, hji⟩

/-- What a step that returns has done to the handles: every handle of the new
state is a handle of the old one, or is the handle `r` the step wrote, whose
fields are null, or those of a handle `o` of the old state, or those of the
handle `makeShared` returns. -/
theorem step_handles {s s1 : State} {op : Op} (hstep : step s op = some s1) :
    ∀ i h, s1.handle i = some h → s.handle i = some h ∨
      h = { sPointer := 0, sharedBlock := 0 } ∨
      (∃ j o, s.handle j = some o ∧ h = { sPointer := o.sPointer, sharedBlock := o.sharedBlock }) ∨
      h = { sPointer := s.heap.blocks.length + 1, sharedBlock := s.heap.blocks.length + 1 } := by
  intro i h hi
  cases op with
  | defaultConstruct =>
    simp only [step, defaultConstruct, Option.map_eq_some'] at hstep
    obtain ⟨r, hr, rfl⟩ := hstep
    rcases State.handle_declare_some hi with h1 | ⟨_, h1⟩
    · exact Or.inl h1
    · exact Or.inr (Or.inl (h1.trans (construct_some hr).2))
  | makeShared v =>
    simp only [step, makeShared_eq, Option.map_some', Option.some.injEq] at hstep
    subst hstep
    rcases State.handle_declare_some hi with h1 | ⟨_, h1⟩
    · exact Or.inl h1
    · exact Or.inr (Or.inr (Or.inr h1))
  | copyConstruct src =>
    simp only [step, Option.bind_eq_bind, Option.bind_eq_some, Option.map_eq_some'] at hstep
    obtain ⟨o, ho, r, hr, rfl⟩ := hstep
    rcases State.handle_declare_some hi with h1 | ⟨_, h1⟩
    · exact Or.inl h1
    · exact Or.inr (Or.inr (Or.inl ⟨src, o, ho, h1.trans (construct_some hr).2⟩))
  | copyConstructOther src =>
    simp only [step, Option.bind_eq_bind, Option.bind_eq_some, Option.map_eq_some'] at hstep
    obtain ⟨o, ho, r, hr, rfl⟩ := hstep
    rcases State.handle_declare_some hi with h1 | ⟨_, h1⟩
    · exact Or.inl h1
    · exact Or.inr (Or.inr (Or.inl ⟨src, o, ho, h1.trans (construct_some hr).2⟩))
  | assign dst src =>
    simp only [step, Option.bind_eq_bind, Option.bind_eq_some, Option.map_eq_some'] at hstep
    obtain ⟨t, _, o, ho, r, hr, rfl⟩ := hstep
    obtain ⟨_, _, _, hf⟩ := assign_some hr
    rcases State.handle_update_some hi with h1 | ⟨_, h1⟩
    · exact Or.inl h1
    · exact Or.inr (Or.inr (Or.inl ⟨src, o, ho, h1.trans hf⟩))
  | assignOther dst src =>
    simp only [step, Option.bind_eq_bind, Option.bind_eq_some, Option.map_eq_some'] at hstep
    obtain ⟨t, _, o, ho, r, hr, rfl⟩ := hstep
    obtain ⟨_, _, _, hf⟩ := assign_some hr
    rcases State.handle_update_some hi with h1 | ⟨_, h1⟩
    · exact Or.inl h1
    · exact Or.inr (Or.inr (Or.inl ⟨src, o, ho, h1.trans hf⟩))
  | reset k =>
    simp only [step, Option.bind_eq_bind, Option.bind_eq_some, Option.map_eq_some'] at hstep
    obtain ⟨t, _, r, hr, rfl⟩ := hstep
    obtain ⟨r1, _, hf⟩ := reset_some hr
    rcases State.handle_update_some hi with h1 | ⟨_, h1⟩
    · exact Or.inl h1
    · exact Or.inr (Or.inl (by rw [h1, hf]))
  | sharedDynamicCast toType src =>
    simp only [step, Option.bind_eq_bind, Option.bind_eq_some, Option.map_eq_some'] at hstep
    obtain ⟨o, ho, r, hr, rfl⟩ := hstep
    obtain ⟨p, _, hp, hc⟩ := sharedDynamicCast_some hr
    rcases State.handle_declare_some hi with h1 | ⟨_, h1⟩
    · exact Or.inl h1
    · have hf := h1.trans (construct_some hc).2
      rcases hp with hp0 | ⟨hpe, hpn⟩
      · subst hp0
        exact Or.inr (Or.inl hf)
      · subst hpe
        rw [if_pos hpn] at hf
        exact Or.inr (Or.inr (Or.inl ⟨src, o, ho, hf⟩))
  | destroy k =>
    simp only [step, Option.bind_eq_bind, Option.bind_eq_some, Option.map_eq_some'] at hstep
    obtain ⟨t, _, r, _, rfl⟩ := hstep
    exact Or.inl (State.handle_retire_some hi).1

/-! ## Counting the handles on a block -/

theorem preDecrement_mod {r : Nat} (h : 1 ≤ r) :
    preDecrement (r % UINT_MODULUS) = (r - 1) % UINT_MODULUS := by
  simp only [preDecrement, UINT_MODULUS]
  split <;> omega

theorem State.getElem_of_handle {s : State} {i : Nat} {h : SharedPointer}
    (hi : s.handle i = some h) :
    ∃ hlt : i < s.handles.length, s.handles[i] = some h := by
  have hlt := State.handle_lt_length hi
  have h2 : s.handles[i]? = some (s.handles[i]) := List.getElem?_eq_getElem hlt
  simp only [State.handle, h2] at hi
  exact ⟨hlt, hi⟩

theorem State.refs_declare (s : State) (r : Heap × SharedPointer) (a : Nat) :
    (s.declare r).refs a = s.refs a + if r.2.sharedBlock = a then 1 else 0 := by
  simp [State.refs, State.declare, List.countP_append, List.countP_singleton, pointsAt]

theorem State.refs_update {s : State} {i : Nat} {h : SharedPointer}
    (hi : s.handle i = some h) (r : Heap × SharedPointer) (a : Nat) :
    (s.update i r).refs a + (if h.sharedBlock = a then 1 else 0) =
      s.refs a + if r.2.sharedBlock = a then 1 else 0 := by
  obtain ⟨hlt, hget⟩ := State.getElem_of_handle hi
  have hle := List.boole_getElem_le_countP (pointsAt a) s.handles i hlt
  simp only [State.refs, State.update]
  rw [List.countP_set _ _ _ _ hlt]
  rw [hget] at hle ⊢
  simp only [pointsAt, Option.any_some, beq_iff_eq] at hle ⊢
  omega

theorem State.refs_retire {s : State} {i : Nat} {h : SharedPointer}
    (hi : s.handle i = some h) (r : Heap × SharedPointer) (a : Nat) :
    (s.retire i r).refs a + (if h.sharedBlock = a then 1 else 0) = s.refs a := by
  obtain ⟨hlt, hget⟩ := State.getElem_of_handle hi
  have hle := List.boole_getElem_le_countP (pointsAt a) s.handles i hlt
  simp only [State.refs, State.retire]
  rw [List.countP_set _ _ _ _ hlt]
  rw [hget] at hle ⊢
  simp only [pointsAt, Option.any_some, Option.any_none, beq_iff_eq] at hle ⊢
  simp only [Bool.false_eq_true, if_false, Nat.add_zero]
  omega

theorem State.refs_pos_iff (s : State) (a : Nat) :
    0 < s.refs a ↔ ∃ i h, s.handle i = some h ∧ h.sharedBlock = a := by
  constructor
  · intro hpos
    obtain ⟨x, hx, hp⟩ := List.countP_pos_iff.mp hpos
    obtain ⟨i, hlt, hget⟩ := List.mem_iff_getElem.mp hx
    cases x with
    | none => simp [pointsAt] at hp
    | some h =>
      refine ⟨i, h, ?_, by simpa [pointsAt] using hp⟩
      simp [State.handle, List.getElem?_eq_getElem hlt, hget]
  · rintro ⟨i, h, hi, rfl⟩
    exact State.refs_pos_of_handle hi

theorem State.refs_eq_zero_of_bounded {s : State} {a : Nat}
    (hb : ∀ i h, s.handle i = some h → h.sharedBlock < a) : s.refs a = 0 := by
  by_contra hne
  obtain ⟨i, h, hi, rfl⟩ := (State.refs_pos_iff s a).mp (Nat.pos_of_ne_zero hne)
  exact Nat.lt_irrefl _ (hb i h hi)

theorem Heap.length_store (m : Heap) (a : Nat) (b : SharedBlock) :
    (m.store a b).blocks.length = m.blocks.length := by
  simp [Heap.store]

theorem Heap.length_released (m : Heap) (a : Nat) (b : SharedBlock) :
    (m.released a b).blocks.length = m.blocks.length := by
  unfold Heap.released
  split <;> simp [Heap.store, Heap.delete]

/-! ## The count invariant is kept by every step -/

theorem Consistent.init : Consistent State.init := by
  refine ⟨?_, ?_, ?_, List.nodup_nil⟩
  · intro a b h
    simp [State.init, Heap.deref] at h
  · intro i h hi
    simp [State.init, State.handle] at hi
  · intro a ha
    simp [State.init] at ha

/-- Member `release` on a live handle, and the handle then cleared. -/
theorem Consistent.release {s : State} {i : Nat} {h : SharedPointer}
    {r : Heap × SharedPointer} (hc : Consistent s) (hi : s.handle i = some h)
    (hr : release s.heap h = some r) :
    Consistent (s.update i (r.1, { sPointer := 0, sharedBlock := 0 })) := by
  have hrefs : ∀ a, a ≠ 0 → (s.update i (r.1, { sPointer := 0, sharedBlock := 0 })).refs a
      + (if h.sharedBlock = a then 1 else 0) = s.refs a := by
    intro a ha
    have := State.refs_update hi (r.1, { sPointer := 0, sharedBlock := 0 }) a
    rw [if_neg (Ne.symm ha)] at this
    exact this
  have hbounded : ∀ j k, (s.update i (r.1, { sPointer := 0, sharedBlock := 0 })).handle j
      = some k → k.sharedBlock ≤ s.heap.blocks.length := by
    intro j k hj
    rcases State.handle_update_some hj with h1 | ⟨_, h1⟩
    · exact hc.bounded j k h1
    · subst h1
      exact Nat.zero_le _
  rcases release_some hr with ⟨_, hb0, hm⟩ | ⟨b, hb, hm⟩
  · refine ⟨?_, ?_, ?_, ?_⟩
    · intro a b' hd
      have hd' : s.heap.deref a = some b' := by rw [← hm]; exact hd
      have ha := Heap.ne_zero_of_deref hd'
      have h2 := hrefs a ha
      rw [if_neg (by rw [hb0]; exact Ne.symm ha)] at h2
      rw [hc.counts a b' hd', ← h2]
      rfl
    · intro j k hj
      show k.sharedBlock ≤ r.1.blocks.length
      rw [hm]
      exact hbounded j k hj
    · intro a ha
      show a ≤ r.1.blocks.length ∧ r.1.deref a = none
      rw [hm]
      exact hc.deleted a (by rw [← hm]; exact ha)
    · show r.1.destructed.Nodup
      rw [hm]
      exact hc.once
  · have hpos := State.refs_pos_of_handle hi
    have hnot : h.sharedBlock ∉ s.heap.destructed := by
      intro hin
      rw [(hc.deleted _ hin).2] at hb
      exact Option.noConfusion hb
    refine ⟨?_, ?_, ?_, ?_⟩
    · intro a b' hd
      have hd' : (s.heap.released h.sharedBlock b).deref a = some b' := by rw [← hm]; exact hd
      have ha := Heap.ne_zero_of_deref hd'
      have h2 := hrefs a ha
      by_cases e : a = h.sharedBlock
      · subst e
        rw [if_pos rfl] at h2
        rw [Heap.deref_released_self _ hb] at hd'
        split at hd'
        · exact Option.noConfusion hd'
        · have := Option.some.inj hd'
          subst this
          show preDecrement b.referencingPointersNum = _
          rw [hc.counts _ b hb, preDecrement_mod hpos]
          congr 1
          omega
      · rw [Heap.deref_released_ne _ hb e] at hd'
        rw [if_neg (Ne.symm e)] at h2
        rw [hc.counts a b' hd', ← h2]
        rfl
    · intro j k hj
      show k.sharedBlock ≤ r.1.blocks.length
      rw [hm, Heap.length_released]
      exact hbounded j k hj
    · intro a ha
      show a ≤ r.1.blocks.length ∧ r.1.deref a = none
      have ha' : a ∈ (s.heap.released h.sharedBlock b).destructed := by rw [← hm]; exact ha
      rw [hm, Heap.length_released]
      rw [Heap.destructed_released] at ha'
      by_cases e : a = h.sharedBlock
      · subst e
        refine ⟨Heap.le_length_of_deref hb, ?_⟩
        rw [Heap.deref_released_self _ hb]
        split at ha'
        · rename_i hz
          rw [if_pos hz]
        · exact absurd ha' hnot
      · have hin : a ∈ s.heap.destructed := by
          split at ha'
          · rcases List.mem_append.mp ha' with h1 | h1
            · exact h1
            · exact absurd (List.mem_singleton.mp h1) e
          · exact ha'
        rw [Heap.deref_released_ne _ hb e]
        exact hc.deleted a hin
    · show r.1.destructed.Nodup
      rw [hm, Heap.destructed_released]
      split
      · refine List.Nodup.append hc.once (List.nodup_singleton _) ?_
        intro x hx hx'
        rw [List.mem_singleton.mp hx'] at hx
        exact hnot hx
      · exact hc.once

/-- Member `retain` of new fields, written into a handle that was cleared. -/
theorem Consistent.retain {s : State} {i : Nat} {h0 : SharedPointer} {p a : Nat} {m' : Heap}
    (hc : Consistent s) (hi : s.handle i = some h0) (h0b : h0.sharedBlock = 0)
    (hr : retain s.heap { sPointer := p, sharedBlock := a } = some m') :
    Consistent (s.update i (m', { sPointer := p, sharedBlock := a })) := by
  have hrefs : ∀ (m : Heap) a', a' ≠ 0 →
      (s.update i (m, { sPointer := p, sharedBlock := a })).refs a'
      = s.refs a' + (if a = a' then 1 else 0) := by
    intro m a' ha'
    have := State.refs_update hi (m, { sPointer := p, sharedBlock := a }) a'
    rw [if_neg (by rw [h0b]; exact Ne.symm ha')] at this
    exact this
  rcases retain_some hr with ⟨_, ha0, hm⟩ | ⟨b, hb, hm⟩
  · simp only at ha0
    subst ha0 hm
    refine ⟨?_, ?_, hc.deleted, hc.once⟩
    · intro a' b' hd
      have ha' := Heap.ne_zero_of_deref hd
      have h2 := hrefs s.heap a' ha'
      rw [if_neg (Ne.symm ha')] at h2
      rw [h2]
      exact hc.counts a' b' hd
    · intro j k hj
      rcases State.handle_update_some hj with h1 | ⟨_, h1⟩
      · exact hc.bounded j k h1
      · subst h1
        exact Nat.zero_le _
  · simp only at hb
    subst hm
    have hsome : (s.heap.deref a).isSome := by rw [hb]; rfl
    refine ⟨?_, ?_, ?_, hc.once⟩
    · intro a' b' hd
      have hd' : (s.heap.store a
          { b with referencingPointersNum := preIncrement b.referencingPointersNum }).deref a'
          = some b' := hd
      have ha' := Heap.ne_zero_of_deref hd'
      rw [Heap.deref_store _ _ _ _ hsome] at hd'
      rw [hrefs _ a' ha']
      by_cases e : a' = a
      · subst e
        rw [if_pos rfl] at hd' ⊢
        have := Option.some.inj hd'
        subst this
        show preIncrement b.referencingPointersNum = _
        rw [hc.counts _ b hb, preIncrement_mod]
      · rw [if_neg e] at hd'
        rw [if_neg (Ne.symm e)]
        exact hc.counts a' b' hd'
    · intro j k hj
      show k.sharedBlock ≤ (s.heap.store a _).blocks.length
      rw [Heap.length_store]
      rcases State.handle_update_some hj with h1 | ⟨_, h1⟩
      · exact hc.bounded j k h1
      · subst h1
        exact Heap.le_length_of_deref hb
    · intro x hx
      show x ≤ (s.heap.store a _).blocks.length ∧ (s.heap.store a _).deref x = none
      have hx' := hc.deleted x hx
      rw [Heap.length_store, Heap.deref_store _ _ _ _ hsome]
      refine ⟨hx'.1, ?_⟩
      by_cases e : x = a
      · subst e
        rw [hx'.2] at hb
        exact Option.noConfusion hb
      · rw [if_neg e]
        exact hx'.2

/-- A new handle object with both fields null. -/
theorem Consistent.declare_null {s : State} (hc : Consistent s) :
    Consistent (s.declare (s.heap, { sPointer := 0, sharedBlock := 0 })) := by
  refine ⟨?_, ?_, hc.deleted, hc.once⟩
  · intro a b hd
    have ha : a ≠ 0 := Heap.ne_zero_of_deref hd
    rw [State.refs_declare, if_neg (Ne.symm ha), Nat.add_zero]
    exact hc.counts a b hd
  · intro j k hj
    rcases State.handle_declare_some hj with h1 | ⟨_, h1⟩
    · exact hc.bounded j k h1
    · subst h1
      exact Nat.zero_le _

/-- The end of the lifetime of a handle whose block pointer is null. -/
theorem Consistent.retire_null {s : State} {i : Nat} {h0 x : SharedPointer}
    (hc : Consistent s) (hi : s.handle i = some h0) (h0b : h0.sharedBlock = 0) :
    Consistent (s.retire i (s.heap, x)) := by
  refine ⟨?_, ?_, hc.deleted, hc.once⟩
  · intro a b hd
    have ha : a ≠ 0 := Heap.ne_zero_of_deref hd
    have := State.refs_retire hi (s.heap, x) a
    rw [if_neg (by rw [h0b]; exact Ne.symm ha), Nat.add_zero] at this
    rw [this]
    exact hc.counts a b hd
  · intro j k hj
    exact hc.bounded j k (State.handle_retire_some hj).1

/-- A fresh block with count `0`, before any handle points at it. -/
theorem Consistent.alloc {s : State} (hc : Consistent s) (v : Value) :
    Consistent { heap := (s.heap.alloc { referencingPointersNum := 0, value := v }).1,
                 handles := s.handles } := by
  have hlen : (s.heap.alloc { referencingPointersNum := 0, value := v }).1.blocks.length
      = s.heap.blocks.length + 1 := by simp [Heap.alloc]
  refine ⟨?_, ?_, ?_, hc.once⟩
  · intro a b hd
    have hd' : (s.heap.alloc { referencingPointersNum := 0, value := v }).1.deref a = some b := hd
    rw [Heap.deref_alloc] at hd'
    show b.referencingPointersNum = s.refs a % UINT_MODULUS
    by_cases e : a = s.heap.blocks.length + 1
    · rw [if_pos e] at hd'
      have := Option.some.inj hd'
      subst this
      have hz : s.refs a = 0 := State.refs_eq_zero_of_bounded (fun i h hi => by
        have := hc.bounded i h hi
        omega)
      rw [hz]
      rfl
    · rw [if_neg e] at hd'
      exact hc.counts a b hd'
  · intro j k hj
    show k.sharedBlock ≤ (s.heap.alloc _).1.blocks.length
    rw [hlen]
    exact Nat.le_succ_of_le (hc.bounded j k hj)
  · intro a ha
    show a ≤ (s.heap.alloc _).1.blocks.length ∧ (s.heap.alloc _).1.deref a = none
    have ha' := hc.deleted a ha
    rw [hlen, Heap.deref_alloc, if_neg (by omega)]
    exact ⟨Nat.le_succ_of_le ha'.1, ha'.2⟩

theorem State.declare_eq_update (s : State) (r : Heap × SharedPointer) :
    s.declare r = (s.declare (s.heap, { sPointer := 0, sharedBlock := 0 })).update
      s.handles.length r := by
  simp [State.declare, State.update]

theorem State.update_update (s : State) (i : Nat) (r1 r2 : Heap × SharedPointer) :
    (s.update i r1).update i r2 = s.update i r2 := by
  simp [State.update]

theorem State.retire_update (s : State) (i : Nat) (r1 r2 : Heap × SharedPointer) :
    (s.update i r1).retire i r2 = s.retire i r2 := by
  simp [State.update, State.retire]

/-- The private constructor, and the handle it builds declared. -/
theorem Consistent.construct {s : State} {p a : Nat} {r : Heap × SharedPointer}
    (hc : Consistent s) (hr : construct s.heap p a = some r) : Consistent (s.declare r) := by
  obtain ⟨h1, h2⟩ := construct_some hr
  have hr' : r = (r.1, { sPointer := p, sharedBlock := a }) := by rw [← h2]
  rw [hr', State.declare_eq_update]
  exact Consistent.retain hc.declare_null (State.handle_declare_length s _) rfl h1

/-- Every operation that returns keeps the count invariant. -/
theorem Consistent.step {s s1 : State} {op : Op} (hc : Consistent s)
    (hstep : step s op = some s1) : Consistent s1 := by
  cases op with
  | defaultConstruct =>
    simp only [SharedPtr.step, defaultConstruct, Option.map_eq_some'] at hstep
    obtain ⟨r, hr, rfl⟩ := hstep
    exact hc.construct hr
  | makeShared v =>
    simp only [SharedPtr.step, Option.map_eq_some'] at hstep
    obtain ⟨r, hr, rfl⟩ := hstep
    have hr' : SharedPointer.construct
        (State.mk (s.heap.alloc { referencingPointersNum := 0, value := v }).1 s.handles).heap
        (addressOfValue (s.heap.blocks.length + 1)) (s.heap.blocks.length + 1) = some r := hr
    have h2 := Consistent.construct (hc.alloc v) hr'
    exact h2
  | copyConstruct src =>
    simp only [SharedPtr.step, Option.bind_eq_bind, Option.bind_eq_some,
      Option.map_eq_some'] at hstep
    obtain ⟨o, _, r, hr, rfl⟩ := hstep
    exact hc.construct hr
  | copyConstructOther src =>
    simp only [SharedPtr.step, Option.bind_eq_bind, Option.bind_eq_some,
      Option.map_eq_some'] at hstep
    obtain ⟨o, _, r, hr, rfl⟩ := hstep
    exact hc.construct hr
  | assign dst src =>
    simp only [SharedPtr.step, Option.bind_eq_bind, Option.bind_eq_some,
      Option.map_eq_some'] at hstep
    obtain ⟨t, ht, o, _, r, hr, rfl⟩ := hstep
    obtain ⟨r1, h1, h2, h3⟩ := assign_some hr
    have hr' : r = (r.1, { sPointer := o.sPointer, sharedBlock := o.sharedBlock }) := by
      rw [← h3]
    rw [hr', ← State.update_update s dst (r1.1, { sPointer := 0, sharedBlock := 0 })]
    exact Consistent.retain (hc.release ht h1)
      (State.handle_update_self _ _ (State.handle_lt_length ht)) rfl h2
  | assignOther dst src =>
    simp only [SharedPtr.step, Option.bind_eq_bind, Option.bind_eq_some,
      Option.map_eq_some'] at hstep
    obtain ⟨t, ht, o, _, r, hr, rfl⟩ := hstep
    obtain ⟨r1, h1, h2, h3⟩ := assign_some hr
    have hr' : r = (r.1, { sPointer := static_cast o.sPointer, sharedBlock := o.sharedBlock }) := by
      rw [← h3]
    rw [hr', ← State.update_update s dst (r1.1, { sPointer := 0, sharedBlock := 0 })]
    exact Consistent.retain (hc.release ht h1)
      (State.handle_update_self _ _ (State.handle_lt_length ht)) rfl h2
  | reset k =>
    simp only [SharedPtr.step, Option.bind_eq_bind, Option.bind_eq_some,
      Option.map_eq_some'] at hstep
    obtain ⟨t, ht, r, hr, rfl⟩ := hstep
    obtain ⟨r1, h1, rfl⟩ := reset_some hr
    exact hc.release ht h1
  | sharedDynamicCast toType src =>
    simp only [SharedPtr.step, Option.bind_eq_bind, Option.bind_eq_some,
      Option.map_eq_some'] at hstep
    obtain ⟨o, _, r, hr, rfl⟩ := hstep
    obtain ⟨p, _, _, hcons⟩ := sharedDynamicCast_some hr
    exact hc.construct hcons
  | destroy k =>
    simp only [SharedPtr.step, Option.bind_eq_bind, Option.bind_eq_some,
      Option.map_eq_some'] at hstep
    obtain ⟨t, ht, r, hr, rfl⟩ := hstep
    rw [destructor_eq] at hr
    rw [← State.retire_update s k (r.1, { sPointer := 0, sharedBlock := 0 })]
    exact Consistent.retire_null (hc.release ht hr)
      (State.handle_update_self _ _ (State.handle_lt_length ht)) rfl

/-- Every run that returns keeps the count invariant. -/
theorem Consistent.run {ops : List Op} : ∀ {s s1 : State}, Consistent s →
    run ops s = some s1 → Consistent s1 := by
  induction ops with
  | nil =>
    intro s s1 hc h
    simp only [SharedPtr.run, Option.some.injEq] at h
    exact h ▸ hc
  | cons op ops ih =>
    intro s s1 hc h
    simp only [SharedPtr.run, Option.bind_eq_some] at h
    obtain ⟨s', h1, h2⟩ := h
    exact ih (hc.step h1) h2

theorem SharedBy.refs_eq {s : State} {k : Nat} {h : SharedPointer} {v : Value}
    (hs : SharedBy s 0 k h v) : s.refs h.sharedBlock = k := by
  have hlen : s.handles.length = k := by rw [hs.count, Nat.zero_add]
  have hall : ∀ x ∈ s.handles, pointsAt h.sharedBlock x = true := by
    intro x hx
    obtain ⟨i, hlt, hget⟩ := List.mem_iff_getElem.mp hx
    have hi := hs.owners i (by omega)
    rw [Nat.zero_add] at hi
    obtain ⟨_, hget'⟩ := State.getElem_of_handle hi
    rw [← hget, hget']
    simp [pointsAt]
  simp only [State.refs]
  rw [List.countP_eq_length.mpr hall, hlen]

/-! ## The claims -/

/-- C1 (amended): for every `N = srcs.length + 1` with `1 ≤ N ≤ 2^32`, after
`makeShared` creates one handle and `N - 1` copies are made of it (each from any
handle of the family), the destructors of the `N` handles, run in any order,
delete the shared block exactly once: after any part of them that leaves a
handle alive the block is still allocated and nothing was deleted, and after the
last one the block is deleted and its deletion is the only one recorded. -/
theorem destroy_all_deletes_once (s : State) (v : Value) (srcs order : List Nat)
    (hN : srcs.length + 1 ≤ UINT_MODULUS) (hsrc : validSources 1 srcs)
    (hord : order.Perm (List.range' s.handles.length (srcs.length + 1))) :
    ∃ s1, run (Op.makeShared v ::
        srcs.map (fun j => Op.copyConstruct (s.handles.length + j))) s = some s1 ∧
      ∀ pre post, order = pre ++ post →
        ∃ s2, run (pre.map Op.destroy) s1 = some s2 ∧
          (post ≠ [] → (s2.heap.deref (s.heap.blocks.length + 1)).isSome ∧
            s2.heap.destructed = s.heap.destructed) ∧
          (post = [] → s2.heap.deref (s.heap.blocks.length + 1) = none ∧
            s2.heap.destructed = s.heap.destructed ++ [s.heap.blocks.length + 1]) := by
  obtain ⟨s1, h1, hs1, hd1⟩ := sharedBy_build s v srcs hsrc
  refine ⟨s1, h1, ?_⟩
  intro pre post hpp
  have hlen : order.length = srcs.length + 1 := by
    rw [hord.length_eq, List.length_range']
  have hnd : order.Nodup := hord.nodup_iff.mpr (List.nodup_range' _ _)
  have hmem : ∀ i ∈ order, s1.handle i =
      some { sPointer := s.heap.blocks.length + 1, sharedBlock := s.heap.blocks.length + 1 } := by
    intro i hi
    have := (List.mem_range'_1.mp (hord.mem_iff.mp hi))
    have h2 := hs1.owners (i - s.handles.length) (by omega)
    rwa [show s.handles.length + (i - s.handles.length) = i by omega] at h2
  have hb := hs1.block
  rw [show 1 + srcs.length = order.length by omega] at hb
  subst hpp
  obtain ⟨s2, h2, hA, hB⟩ := sharedBy_destroyAll _ v pre post s1 hnd (by omega) hb hmem
  refine ⟨s2, h2, ?_, ?_⟩
  · intro hne
    obtain ⟨x, y, _⟩ := hA hne
    exact ⟨by simp [x], y.trans hd1.destructed⟩
  · intro hpost
    have hpre : pre ≠ [] := by
      intro hpre
      subst hpre hpost
      simp at hlen
    obtain ⟨x, y⟩ := hB hpost hpre
    exact ⟨x, by rw [y, hd1.destructed]⟩

/-- C1, an instance: three handles on one block, destroyed in the order 1, 2, 0. -/
theorem destroy_all_deletes_once_witness :
    ∃ s1 s2, run [Op.makeShared ⟨[], 42⟩, Op.copyConstruct 0, Op.copyConstruct 1] State.init
        = some s1 ∧
      run [Op.destroy 1, Op.destroy 2, Op.destroy 0] s1 = some s2 ∧
      s2.heap.deref 1 = none ∧ s2.heap.destructed = [1] := by
  obtain ⟨s1, h1, h⟩ := destroy_all_deletes_once State.init ⟨[], 42⟩ [0, 1] [1, 2, 0]
    (by decide) ⟨by decide, by decide, trivial⟩ (by decide)
  obtain ⟨s2, h2, _, hB⟩ := h [1, 2, 0] [] rfl
  exact ⟨s1, s2, h1, h2, hB rfl⟩

/-- C1 as stated fails for `N = 2^32 + 1`: the count of the one block has wrapped
to `1`, the first destructor deletes the block, and the `2^32` other handles
are still alive and still point at it. -/
theorem destroy_first_of_many_deletes :
    ∃ s1 s2, run (Op.makeShared ⟨[], 42⟩ ::
        List.replicate UINT_MODULUS (Op.copyConstruct 0)) State.init = some s1 ∧
      step s1 (Op.destroy 0) = some s2 ∧
      s2.heap.deref 1 = none ∧ s2.heap.destructed = [1] ∧
      ∀ i, 1 ≤ i → i ≤ UINT_MODULUS → s2.handle i = some { sPointer := 1, sharedBlock := 1 } := by
  obtain ⟨s1, h1, hs1, hd1⟩ := sharedBy_build_replicate State.init ⟨[], 42⟩ UINT_MODULUS
  have hb := hs1.block
  have hcount : (1 + UINT_MODULUS) % UINT_MODULUS = 1 := by
    simp only [UINT_MODULUS]
  rw [hcount] at hb
  have h0 := hs1.owners 0 (by omega)
  have hz : preDecrement 1 = 0 := by simp only [preDecrement]; rfl
  refine ⟨s1, _, h1, step_destroy h0 hb, ?_, ?_, ?_⟩
  · simp only [hz, if_true, State.retire]
    show (s1.heap.delete 1).deref 1 = none
    rw [Heap.deref_delete _ _ _ (by decide), if_pos rfl]
  · simp only [hz, if_true, State.retire]
    show s1.heap.destructed ++ [1] = [1]
    rw [hd1.destructed]
    rfl
  · intro i hi1 hi2
    rw [State.handle_retire_ne _ _ (by omega)]
    have := hs1.owners i (by omega)
    simpa [State.init] using this

/-- C2 fails on the code for a sole owner: `h = makeShared<int>(42); h = h;`.
Inside `assign`, `release` takes the count from `1` to `0`, deletes the block
and clears `h`; the old pointers are then written back into `h`, and `retain`
reads the count of the deleted block, so the self-assignment is undefined. -/
theorem self_assign_sole_owner_undefined :
    makeShared ⟨[], []⟩ ⟨[], 42⟩ =
        some (⟨[some { referencingPointersNum := 1, value := ⟨[], 42⟩ }], []⟩, ⟨1, 1⟩) ∧
      release ⟨[some { referencingPointersNum := 1, value := ⟨[], 42⟩ }], []⟩ ⟨1, 1⟩ =
        some (⟨[none], [1]⟩, ⟨0, 0⟩) ∧
      retain ⟨[none], [1]⟩ ⟨1, 1⟩ = none ∧
      operatorAssign ⟨[some { referencingPointersNum := 1, value := ⟨[], 42⟩ }], []⟩
        ⟨1, 1⟩ ⟨1, 1⟩ = none := by
  decide

/-- C4: `makeShared` always returns.  It allocates one block at a pointer that
was not allocated before, created with count `0`; the handle it returns is
non-empty, its block field is the new block and its access pointer the value
embedded in it; on return the new block has count `1`, and every other block, and
the record of deletions, is as before. -/
theorem makeShared_spec (m : Heap) (v : Value) :
    ∃ m0 a m1 h,
      m.alloc { referencingPointersNum := 0, value := v } = (m0, a) ∧
      m.deref a = none ∧
      m0.deref a = some { referencingPointersNum := 0, value := v } ∧
      makeShared m v = construct m0 (addressOfValue a) a ∧
      makeShared m v = some (m1, h) ∧
      operatorBool h = true ∧ h.sharedBlock = a ∧ h.sPointer = addressOfValue a ∧
      operatorStar m1 h = some v ∧
      m1.deref a = some { referencingPointersNum := 1, value := v } ∧
      (∀ a', a' ≠ a → m1.deref a' = m.deref a') ∧
      m1.blocks.length = m.blocks.length + 1 ∧
      m1.destructed = m.destructed := by
  have hnew : ∀ c : SharedBlock, (m.alloc c).1.deref (m.blocks.length + 1) = some c := by
    intro c
    rw [Heap.deref_alloc, if_pos rfl]
  have hold : m.deref (m.blocks.length + 1) = none := by
    cases hd : m.deref (m.blocks.length + 1) with
    | none => rfl
    | some b =>
      have := Heap.le_length_of_deref hd
      omega
  refine ⟨(m.alloc { referencingPointersNum := 0, value := v }).1, m.blocks.length + 1,
    (m.alloc { referencingPointersNum := 1, value := v }).1,
    { sPointer := m.blocks.length + 1, sharedBlock := m.blocks.length + 1 },
    rfl, hold, hnew _, rfl, makeShared_eq m v, ?_, rfl, rfl, ?_, hnew _, ?_, ?_, rfl⟩
  · simp [operatorBool]
  · simp only [operatorStar, hnew, Option.map_some']
  · intro a' ha'
    rw [Heap.deref_alloc, if_neg ha']
  · simp [Heap.alloc]

/-- C5 (amended): copy construction from a live handle `h`, of the same type
or of a related type.  When the block of `h` is allocated and its count is below
`2^32 - 1`, the copy returns, the new handle has the access pointer and the block
of `h`, the count of that block is one more than before, no block is allocated,
every other block is as before and `h` keeps its fields.  When `h` is empty the
copy returns an empty handle and the free store is as before. -/
theorem copyConstruct_spec (s : State) (src : Nat) (h : SharedPointer)
    (hh : s.handle src = some h) :
    (∀ b, s.heap.deref h.sharedBlock = some b →
      b.referencingPointersNum + 1 < UINT_MODULUS →
      ∃ s1, step s (.copyConstruct src) = some s1 ∧
        step s (.copyConstructOther src) = some s1 ∧
        s1.handles = s.handles ++ [some h] ∧
        s1.heap.deref h.sharedBlock =
          some { b with referencingPointersNum := b.referencingPointersNum + 1 } ∧
        s1.heap.blocks.length = s.heap.blocks.length ∧
        (∀ a, a ≠ h.sharedBlock → s1.heap.deref a = s.heap.deref a) ∧
        s1.heap.destructed = s.heap.destructed ∧
        s1.handle src = some h) ∧
    (h.sPointer = 0 → h.sharedBlock = 0 →
      ∃ s1, step s (.copyConstruct src) = some s1 ∧
        step s (.copyConstructOther src) = some s1 ∧
        s1.handles = s.handles ++ [some { sPointer := 0, sharedBlock := 0 }] ∧
        s1.heap = s.heap ∧
        s1.handle src = some h) := by
  have hlt := State.handle_lt_length hh
  constructor
  · intro b hb hlt2
    refine ⟨_, step_copyConstruct hh hb, ?_, rfl, ?_, ?_, ?_, rfl, ?_⟩
    · simp only [step, hh, copyConstructOther, static_cast, construct_eq, retain_eq, hb,
        Option.bind_eq_bind, Option.some_bind, Option.map_some']
    · show (s.heap.store _ _).deref h.sharedBlock = _
      rw [Heap.deref_store _ _ _ _ (by simp [hb]), if_pos rfl, preIncrement_of_lt hlt2]
    · simp [State.declare, Heap.store]
    · intro a ha
      show (s.heap.store _ _).deref a = _
      rw [Heap.deref_store _ _ _ _ (by simp [hb]), if_neg ha]
    · rw [State.handle_declare_lt _ _ hlt]
      exact hh
  · intro hp hbk
    have hd : s.heap.deref h.sharedBlock = none := by rw [hbk]; exact Heap.deref_zero _
    have hfields : h = { sPointer := 0, sharedBlock := 0 } := by
      cases h
      simp only at hp hbk
      subst hp hbk
      rfl
    subst hfields
    refine ⟨s.declare (s.heap, { sPointer := 0, sharedBlock := 0 }), ?_, ?_, rfl, rfl, ?_⟩
    · simp only [step, hh, copyConstruct, construct_eq, retain_eq, Heap.deref_zero, and_self,
        if_true, Option.bind_eq_bind, Option.some_bind, Option.map_some']
    · simp only [step, hh, copyConstructOther, static_cast, construct_eq, retain_eq,
        Heap.deref_zero, and_self, if_true, Option.bind_eq_bind, Option.some_bind,
        Option.map_some']
    · rw [State.handle_declare_lt _ _ hlt]
      exact hh

/-- C5, an instance: copying the one handle of a block with count `1`. -/
theorem copyConstruct_spec_witness :
    ∃ s1, step ⟨⟨[some { referencingPointersNum := 1, value := ⟨[], 42⟩ }], []⟩, [some ⟨1, 1⟩]⟩
        (.copyConstruct 0) = some s1 ∧
      s1.handles = [some ⟨1, 1⟩, some ⟨1, 1⟩] ∧
      s1.heap.deref 1 = some { referencingPointersNum := 2, value := ⟨[], 42⟩ } := by
  obtain ⟨s1, h1, _, h2, h3, _⟩ := (copyConstruct_spec
    ⟨⟨[some { referencingPointersNum := 1, value := ⟨[], 42⟩ }], []⟩, [some ⟨1, 1⟩]⟩ 0 ⟨1, 1⟩
    (by decide)).1 { referencingPointersNum := 1, value := ⟨[], 42⟩ } (by decide) (by decide)
  exact ⟨s1, h1, h2, h3⟩

/-- C5 as stated fails when the count is `2^32 - 1`: after `makeShared` and
`2^32 - 2` copies the block has count `2^32 - 1`, and one more copy leaves it with
count `0`, not `2^32`. -/
theorem copyConstruct_wraps_at_max :
    ∃ s1 s2, run (Op.makeShared ⟨[], 42⟩ ::
        List.replicate (UINT_MODULUS - 2) (Op.copyConstruct 0)) State.init = some s1 ∧
      s1.handle 0 = some { sPointer := 1, sharedBlock := 1 } ∧
      s1.heap.deref 1 =
        some { referencingPointersNum := UINT_MODULUS - 1, value := ⟨[], 42⟩ } ∧
      step s1 (Op.copyConstruct 0) = some s2 ∧
      s2.heap.deref 1 = some { referencingPointersNum := 0, value := ⟨[], 42⟩ } := by
  obtain ⟨s1, h1, hs1, _⟩ := sharedBy_build_replicate State.init ⟨[], 42⟩ (UINT_MODULUS - 2)
  obtain ⟨s2, h2, hs2, _⟩ := sharedBy_copyConstruct hs1 (show 0 < 1 + (UINT_MODULUS - 2) by omega)
  have e1 : (1 + (UINT_MODULUS - 2)) % UINT_MODULUS = UINT_MODULUS - 1 := by
    simp only [UINT_MODULUS]
  have e2 : (1 + (UINT_MODULUS - 2) + 1) % UINT_MODULUS = 0 := by
    simp only [UINT_MODULUS]
  have hb1 := hs1.block
  have hb2 := hs2.block
  rw [e1] at hb1
  rw [e2] at hb2
  exact ⟨s1, s2, h1, hs1.owners 0 (by omega), hb1, h2, hb2⟩

/-- C7 (amended): when `dynamic_cast` succeeds on the access pointer of a live
handle `h` whose block is allocated with a count below `2^32 - 1`,
`sharedDynamicCast` returns a new non-empty handle `r` with the block of `h`; the
count of that block is one more than before, no block is allocated, `h` keeps its
fields and `r == h`. -/
theorem sharedDynamicCast_success_spec (s : State) (toType src p : Nat) (h : SharedPointer)
    (b : SharedBlock) (hh : s.handle src = some h)
    (hc : dynamic_cast s.heap toType h.sPointer = some p) (hp : p ≠ 0)
    (hb : s.heap.deref h.sharedBlock = some b)
    (hlt : b.referencingPointersNum + 1 < UINT_MODULUS) :
    ∃ s1 r, step s (.sharedDynamicCast toType src) = some s1 ∧
      s1.handles = s.handles ++ [some r] ∧
      operatorBool r = true ∧ r.sharedBlock = h.sharedBlock ∧
      s1.heap.deref h.sharedBlock =
        some { b with referencingPointersNum := b.referencingPointersNum + 1 } ∧
      s1.heap.blocks.length = s.heap.blocks.length ∧
      s1.handle src = some h ∧
      operatorEq r h = true := by
  obtain ⟨hpq, hq⟩ := dynamic_cast_eq_some hc hp
  subst hpq
  refine ⟨_, { sPointer := h.sPointer, sharedBlock := h.sharedBlock },
    step_cast_of_success hh hc hq hb, rfl, ?_, rfl, ?_, ?_, ?_, ?_⟩
  · simp [operatorBool, hq]
  · show (s.heap.store _ _).deref h.sharedBlock = _
    rw [Heap.deref_store _ _ _ _ (by simp [hb]), if_pos rfl, preIncrement_of_lt hlt]
  · simp [State.declare, Heap.store]
  · rw [State.handle_declare_lt _ _ (State.handle_lt_length hh)]
    exact hh
  · simp [operatorEq]

/-- C7, an instance: a cast to class 7 of a handle on an object of classes 7 and 9. -/
theorem sharedDynamicCast_success_spec_witness :
    ∃ s1 r, step ⟨⟨[some { referencingPointersNum := 1, value := ⟨[7, 9], 42⟩ }], []⟩,
        [some ⟨1, 1⟩]⟩ (.sharedDynamicCast 7 0) = some s1 ∧
      s1.handles = [some ⟨1, 1⟩] ++ [some r] ∧
      operatorBool r = true ∧ r.sharedBlock = 1 ∧
      s1.heap.deref 1 = some { referencingPointersNum := 2, value := ⟨[7, 9], 42⟩ } ∧
      operatorEq r ⟨1, 1⟩ = true := by
  obtain ⟨s1, r, h1, h2, h3, h4, h5, _, _, h6⟩ := sharedDynamicCast_success_spec
    ⟨⟨[some { referencingPointersNum := 1, value := ⟨[7, 9], 42⟩ }], []⟩, [some ⟨1, 1⟩]⟩
    7 0 1 ⟨1, 1⟩ { referencingPointersNum := 1, value := ⟨[7, 9], 42⟩ }
    (by decide) (by decide) (by decide) (by decide) (by decide)
  exact ⟨s1, r, h1, h2, h3, h4, h5, h6⟩

/-- C7 as stated fails when the count is `2^32 - 1`: the cast succeeds and
leaves the block with count `0`, not `2^32`. -/
theorem sharedDynamicCast_wraps_at_max :
    ∃ s1 s2, run (Op.makeShared ⟨[7], 42⟩ ::
        List.replicate (UINT_MODULUS - 2) (Op.copyConstruct 0)) State.init = some s1 ∧
      s1.handle 0 = some { sPointer := 1, sharedBlock := 1 } ∧
      s1.heap.deref 1 =
        some { referencingPointersNum := UINT_MODULUS - 1, value := ⟨[7], 42⟩ } ∧
      dynamic_cast s1.heap 7 1 = some 1 ∧
      step s1 (Op.sharedDynamicCast 7 0) = some s2 ∧
      s2.heap.deref 1 = some { referencingPointersNum := 0, value := ⟨[7], 42⟩ } := by
  obtain ⟨s1, h1, hs1, _⟩ := sharedBy_build_replicate State.init ⟨[7], 42⟩ (UINT_MODULUS - 2)
  have e1 : (1 + (UINT_MODULUS - 2)) % UINT_MODULUS = UINT_MODULUS - 1 := by
    simp only [UINT_MODULUS]
  have hb : s1.heap.deref 1 =
      some { referencingPointersNum := UINT_MODULUS - 1, value := ⟨[7], 42⟩ } := by
    have := hs1.block
    rw [e1] at this
    exact this
  have h0 : s1.handle 0 = some { sPointer := 1, sharedBlock := 1 } := hs1.owners 0 (by omega)
  have hc : dynamic_cast s1.heap 7 1 = some 1 := by
    simp [dynamic_cast, hb]
  refine ⟨s1, _, h1, h0, hb, hc, step_cast_of_success h0 hc (by decide) hb, ?_⟩
  show (s1.heap.store _ _).deref 1 = _
  rw [Heap.deref_store _ _ _ _ (by rw [hb]; rfl), if_pos rfl]
  simp only [preIncrement, UINT_MODULUS]

/-- C8: when the runtime check of `sharedDynamicCast` fails on a live handle `h`
(`h` is empty, or the object it points at is not a `ToType`), `dynamic_cast` gives
null, the call returns an empty handle, the free store is exactly as before and
every earlier handle, `h` included, keeps its fields. -/
theorem sharedDynamicCast_failure_spec (s : State) (toType src : Nat) (h : SharedPointer)
    (hh : s.handle src = some h)
    (hfail : h.sPointer = 0 ∨
      ∃ b, s.heap.deref h.sPointer = some b ∧ toType ∉ b.value.classes) :
    ∃ s1, dynamic_cast s.heap toType h.sPointer = some 0 ∧
      step s (.sharedDynamicCast toType src) = some s1 ∧
      s1.handles = s.handles ++ [some { sPointer := 0, sharedBlock := 0 }] ∧
      operatorBool { sPointer := 0, sharedBlock := 0 } = false ∧
      s1.heap = s.heap ∧
      s1.handle src = some h ∧
      ∀ j, j < s.handles.length → s1.handle j = s.handle j := by
  have hc : dynamic_cast s.heap toType h.sPointer = some 0 := by
    unfold dynamic_cast
    rcases hfail with h0 | ⟨b, hb, hnot⟩
    · rw [if_pos h0]
    · rw [if_neg (Heap.ne_zero_of_deref hb), hb]
      simp only [Option.map_some', hnot, if_false]
  refine ⟨_, hc, step_cast_of_failure hh hc, rfl, by decide, rfl, ?_, ?_⟩
  · rw [State.handle_declare_lt _ _ (State.handle_lt_length hh)]
    exact hh
  · intro j hj
    exact State.handle_declare_lt _ _ hj

/-- C8, an instance: a cast to class 8 of a handle on an object of classes 7 and 9. -/
theorem sharedDynamicCast_failure_spec_witness :
    ∃ s1, step ⟨⟨[some { referencingPointersNum := 1, value := ⟨[7, 9], 42⟩ }], []⟩,
        [some ⟨1, 1⟩]⟩ (.sharedDynamicCast 8 0) = some s1 ∧
      s1.handles = [some ⟨1, 1⟩, some ⟨0, 0⟩] ∧
      s1.heap = ⟨[some { referencingPointersNum := 1, value := ⟨[7, 9], 42⟩ }], []⟩ := by
  obtain ⟨s1, _, h1, h2, _, h3, _⟩ := sharedDynamicCast_failure_spec
    ⟨⟨[some { referencingPointersNum := 1, value := ⟨[7, 9], 42⟩ }], []⟩, [some ⟨1, 1⟩]⟩
    8 0 ⟨1, 1⟩ (by decide)
    (Or.inr ⟨{ referencingPointersNum := 1, value := ⟨[7, 9], 42⟩ }, by decide, by decide⟩)
  exact ⟨s1, h1, h2, h3⟩

/-- C9: `reset` on a live handle `h` whose block is allocated with count `k`
returns and leaves `h` empty (both fields null, `operator bool` false); every
other handle keeps its fields and every other block is as before; when `k ≥ 2`
the block stays allocated with count `k - 1` and nothing is deleted; when `k = 1`
the block is deleted by this call. -/
theorem reset_spec (s : State) (i : Nat) (h : SharedPointer) (b : SharedBlock)
    (hh : s.handle i = some h) (hb : s.heap.deref h.sharedBlock = some b) :
    ∃ s1, step s (.reset i) = some s1 ∧
      s1.handle i = some { sPointer := 0, sharedBlock := 0 } ∧
      operatorBool { sPointer := 0, sharedBlock := 0 } = false ∧
      (∀ j, j ≠ i → s1.handle j = s.handle j) ∧
      (∀ a, a ≠ h.sharedBlock → s1.heap.deref a = s.heap.deref a) ∧
      (2 ≤ b.referencingPointersNum →
        s1.heap.deref h.sharedBlock =
          some { b with referencingPointersNum := b.referencingPointersNum - 1 } ∧
        s1.heap.destructed = s.heap.destructed) ∧
      (b.referencingPointersNum = 1 →
        s1.heap.deref h.sharedBlock = none ∧
        s1.heap.destructed = s.heap.destructed ++ [h.sharedBlock]) := by
  refine ⟨_, step_reset_of_deref hh hb, ?_, by decide, ?_, ?_, ?_, ?_⟩
  · exact State.handle_update_self _ _ (State.handle_lt_length hh)
  · intro j hj
    exact State.handle_update_ne _ _ hj
  · intro a ha
    exact Heap.deref_released_ne _ hb ha
  · intro hk
    have hdec := preDecrement_of_pos (show 0 < b.referencingPointersNum by omega)
    have hz : preDecrement b.referencingPointersNum ≠ 0 := by rw [hdec]; omega
    constructor
    · show (s.heap.released _ _).deref h.sharedBlock = _
      rw [Heap.deref_released_self _ hb, if_neg hz, hdec]
    · show (s.heap.released _ _).destructed = _
      rw [Heap.destructed_released, if_neg hz]
  · intro hk
    have hdec := preDecrement_of_pos (show 0 < b.referencingPointersNum by omega)
    have hz : preDecrement b.referencingPointersNum = 0 := by rw [hdec]; omega
    constructor
    · show (s.heap.released _ _).deref h.sharedBlock = _
      rw [Heap.deref_released_self _ hb, if_pos hz]
    · show (s.heap.released _ _).destructed = _
      rw [Heap.destructed_released, if_pos hz]

/-- C9, an instance: `reset` on one of two owners of a block. -/
theorem reset_spec_witness :
    ∃ s1, step ⟨⟨[some { referencingPointersNum := 2, value := ⟨[], 42⟩ }], []⟩,
        [some ⟨1, 1⟩, some ⟨1, 1⟩]⟩ (.reset 0) = some s1 ∧
      s1.handle 0 = some ⟨0, 0⟩ ∧ s1.handle 1 = some ⟨1, 1⟩ ∧
      s1.heap.deref 1 = some { referencingPointersNum := 1, value := ⟨[], 42⟩ } := by
  obtain ⟨s1, h1, h2, _, h3, _, h4, _⟩ := reset_spec
    ⟨⟨[some { referencingPointersNum := 2, value := ⟨[], 42⟩ }], []⟩,
        [some ⟨1, 1⟩, some ⟨1, 1⟩]⟩ 0 ⟨1, 1⟩
    { referencingPointersNum := 2, value := ⟨[], 42⟩ } (by decide) (by decide)
  exact ⟨s1, h1, h2, (h3 1 (by decide)).trans (by decide), (h4 (by decide)).1⟩

/-- C10: a public operation that returns keeps the handle invariant.  If in
every live handle of the state before it the access pointer is null exactly when
the block pointer is null, then the same holds of every live handle of the state
after it, the handle it produced or modified included. -/
theorem handle_fields_invariant (s s1 : State) (op : Op) (hstep : step s op = some s1)
    (hinv : ∀ i h, s.handle i = some h → (h.sPointer = 0 ↔ h.sharedBlock = 0)) :
    ∀ i h, s1.handle i = some h → (h.sPointer = 0 ↔ h.sharedBlock = 0) := by
  intro i h hi
  rcases step_handles hstep i h hi with h1 | h1 | ⟨j, o, ho, h1⟩ | h1
  · exact hinv i h h1
  · subst h1
    exact ⟨fun _ => rfl, fun _ => rfl⟩
  · subst h1
    exact hinv j o ho
  · subst h1
    constructor <;> intro h0 <;> simp at h0

/-- C10, an instance: the handle a successful cast produces. -/
theorem handle_fields_invariant_witness :
    step ⟨⟨[some { referencingPointersNum := 1, value := ⟨[7], 42⟩ }], []⟩, [some ⟨1, 1⟩]⟩
        (.sharedDynamicCast 7 0) =
      some ⟨⟨[some { referencingPointersNum := 2, value := ⟨[7], 42⟩ }], []⟩,
        [some ⟨1, 1⟩, some ⟨1, 1⟩]⟩ ∧
    ((⟨1, 1⟩ : SharedPointer).sPointer = 0 ↔ (⟨1, 1⟩ : SharedPointer).sharedBlock = 0) :=
  ⟨by decide, handle_fields_invariant
    ⟨⟨[some { referencingPointersNum := 1, value := ⟨[7], 42⟩ }], []⟩, [some ⟨1, 1⟩]⟩
    ⟨⟨[some { referencingPointersNum := 2, value := ⟨[7], 42⟩ }], []⟩,
      [some ⟨1, 1⟩, some ⟨1, 1⟩]⟩
    (.sharedDynamicCast 7 0) (by decide)
    (by
      intro i h hi
      have hlt := State.handle_lt_length hi
      have hi0 : i = 0 := by simpa using hlt
      subst hi0
      have : h = ⟨1, 1⟩ := (Option.some.inj hi).symm
      subst this
      decide)
    1 ⟨1, 1⟩ (by decide)⟩

/-- C3 (amended): in every state that a sequence of public operations reaches
from the empty program state, the count of every allocated block is the number of
live handles whose block field references it, reduced modulo `2^32`.  So while
fewer than `2^32` live handles reference the block its count is that number, and
is positive exactly when some live handle references the block.  No block is
deleted twice. -/
theorem reachable_counts (ops : List Op) (s : State) (hrun : run ops State.init = some s) :
    (∀ a b, s.heap.deref a = some b →
      b.referencingPointersNum = s.refs a % UINT_MODULUS ∧
      (s.refs a < UINT_MODULUS →
        b.referencingPointersNum = s.refs a ∧
        (0 < b.referencingPointersNum ↔ ∃ i h, s.handle i = some h ∧ h.sharedBlock = a))) ∧
    s.heap.destructed.Nodup := by
  have hc : Consistent s := Consistent.run Consistent.init hrun
  refine ⟨fun a b hd => ⟨hc.counts a b hd, fun hlt => ?_⟩, hc.once⟩
  have he : b.referencingPointersNum = s.refs a := by
    rw [hc.counts a b hd, mod_of_lt_modulus hlt]
  exact ⟨he, by rw [he]; exact State.refs_pos_iff s a⟩

/-- C3, an instance: after `makeShared`, a copy and a `reset` of the first
handle, block 1 has count `1` and one live handle references it. -/
theorem reachable_counts_witness :
    run [Op.makeShared ⟨[], 42⟩, Op.copyConstruct 0, Op.reset 0] State.init =
      some ⟨⟨[some { referencingPointersNum := 1, value := ⟨[], 42⟩ }], []⟩,
        [some ⟨0, 0⟩, some ⟨1, 1⟩]⟩ ∧
    (1 : Nat) = (State.mk ⟨[some { referencingPointersNum := 1, value := ⟨[], 42⟩ }], []⟩
        [some ⟨0, 0⟩, some ⟨1, 1⟩]).refs 1 % UINT_MODULUS :=
  ⟨by decide, ((reachable_counts [Op.makeShared ⟨[], 42⟩, Op.copyConstruct 0, Op.reset 0]
    ⟨⟨[some { referencingPointersNum := 1, value := ⟨[], 42⟩ }], []⟩,
      [some ⟨0, 0⟩, some ⟨1, 1⟩]⟩ (by decide)).1 1
    { referencingPointersNum := 1, value := ⟨[], 42⟩ } (by decide)).1⟩

/-- C3 as stated fails with `2^32` handles on one block: after `makeShared`
and `2^32 - 1` copies the block is allocated, `2^32` live handles reference it,
and its count is `0`. -/
theorem count_zero_with_live_handles :
    ∃ s, run (Op.makeShared ⟨[], 42⟩ ::
        List.replicate (UINT_MODULUS - 1) (Op.copyConstruct 0)) State.init = some s ∧
      s.heap.deref 1 = some { referencingPointersNum := 0, value := ⟨[], 42⟩ } ∧
      s.handle 0 = some { sPointer := 1, sharedBlock := 1 } ∧
      s.refs 1 = UINT_MODULUS := by
  obtain ⟨s1, h1, hs1, _⟩ := sharedBy_build_replicate State.init ⟨[], 42⟩ (UINT_MODULUS - 1)
  have e1 : (1 + (UINT_MODULUS - 1)) % UINT_MODULUS = 0 := by
    simp only [UINT_MODULUS]
  have e2 : 1 + (UINT_MODULUS - 1) = UINT_MODULUS := by
    simp only [UINT_MODULUS]
  have hb := hs1.block
  rw [e1] at hb
  have hr := SharedBy.refs_eq hs1
  rw [e2] at hr
  exact ⟨s1, h1, hb, hs1.owners 0 (by omega), hr⟩

/-- C11: the scenario `h1 = makeShared<int>(42); h2 = h1; h1.reset();` and then
the destructor of `h2`, from the empty program state.  After `makeShared` the
count is `1` and `*h1` is `42`; after the copy the count is `2` and `h1 == h2`;
after `h1.reset()` the handle `h1` is empty, `h2` is non-empty, `*h2` is `42` and
the count is `1`; the destructor of `h2` takes the count to `0` and deletes the
block; over the whole scenario the block is deleted exactly once. -/
theorem scenario_make_copy_reset_destroy :
    step State.init (.makeShared ⟨[], 42⟩) =
        some ⟨⟨[some { referencingPointersNum := 1, value := ⟨[], 42⟩ }], []⟩,
          [some ⟨1, 1⟩]⟩ ∧
      operatorStar ⟨[some { referencingPointersNum := 1, value := ⟨[], 42⟩ }], []⟩ ⟨1, 1⟩ =
        some ⟨[], 42⟩ ∧
      step ⟨⟨[some { referencingPointersNum := 1, value := ⟨[], 42⟩ }], []⟩, [some ⟨1, 1⟩]⟩
          (.copyConstruct 0) =
        some ⟨⟨[some { referencingPointersNum := 2, value := ⟨[], 42⟩ }], []⟩,
          [some ⟨1, 1⟩, some ⟨1, 1⟩]⟩ ∧
      operatorEq ⟨1, 1⟩ ⟨1, 1⟩ = true ∧
      step ⟨⟨[some { referencingPointersNum := 2, value := ⟨[], 42⟩ }], []⟩,
          [some ⟨1, 1⟩, some ⟨1, 1⟩]⟩ (.reset 0) =
        some ⟨⟨[some { referencingPointersNum := 1, value := ⟨[], 42⟩ }], []⟩,
          [some ⟨0, 0⟩, some ⟨1, 1⟩]⟩ ∧
      operatorBool ⟨0, 0⟩ = false ∧ operatorBool ⟨1, 1⟩ = true ∧
      operatorStar ⟨[some { referencingPointersNum := 1, value := ⟨[], 42⟩ }], []⟩ ⟨1, 1⟩ =
        some ⟨[], 42⟩ ∧
      preDecrement 1 = 0 ∧
      step ⟨⟨[some { referencingPointersNum := 1, value := ⟨[], 42⟩ }], []⟩,
          [some ⟨0, 0⟩, some ⟨1, 1⟩]⟩ (.destroy 1) =
        some ⟨⟨[none], [1]⟩, [some ⟨0, 0⟩, none]⟩ ∧
      run [.makeShared ⟨[], 42⟩, .copyConstruct 0, .reset 0, .destroy 1] State.init =
        some ⟨⟨[none], [1]⟩, [some ⟨0, 0⟩, none]⟩ ∧
      (State.mk ⟨[none], [1]⟩ [some ⟨0, 0⟩, none]).heap.destructed.count 1 = 1 := by
  decide

/-- C14: default construction always returns; the handle it produces has both
fields null and tests false, and the free store (its blocks, their counts and
the record of deletions) is exactly as before; the handles declared earlier are
as before. -/
theorem defaultConstruct_spec (s : State) :
    defaultConstruct s.heap = some (s.heap, { sPointer := 0, sharedBlock := 0 }) ∧
      operatorBool { sPointer := 0, sharedBlock := 0 } = false ∧
      step s .defaultConstruct =
        some { heap := s.heap,
               handles := s.handles ++ [some { sPointer := 0, sharedBlock := 0 }] } := by
  have h : defaultConstruct s.heap = some (s.heap, { sPointer := 0, sharedBlock := 0 }) := by
    simp only [defaultConstruct, construct_eq, retain_eq, Heap.deref_zero, and_self, if_true,
      Option.map_some']
  refine ⟨h, by decide, ?_⟩
  simp only [step, h, Option.map_some']
  rfl

/-- C13: `a == b` is true exactly when the access pointers of `a` and `b` are
the same; so two empty handles compare equal, and a handle compares equal, both
ways, to every copy made of it by either copy constructor; `operator bool` is
true exactly when the access pointer is not null. -/
theorem operatorEq_spec :
    (∀ a b : SharedPointer, operatorEq a b = true ↔ a.sPointer = b.sPointer) ∧
    (∀ a b : SharedPointer, a.sPointer = 0 → b.sPointer = 0 → operatorEq a b = true) ∧
    (∀ (m : Heap) (h : SharedPointer) (r : Heap × SharedPointer),
      copyConstruct m h = some r ∨ copyConstructOther m h = some r →
      operatorEq h r.2 = true ∧ operatorEq r.2 h = true) ∧
    (∀ h : SharedPointer, operatorBool h = true ↔ h.sPointer ≠ 0) := by
  refine ⟨?_, ?_, ?_, ?_⟩
  · intro a b
    simp [operatorEq]
  · intro a b ha hb
    simp [operatorEq, ha, hb]
  · intro m h r hr
    have hf : r.2 = { sPointer := h.sPointer, sharedBlock := h.sharedBlock } := by
      rcases hr with hr | hr
      · exact (construct_some hr).2
      · exact (construct_some hr).2
    rw [hf]
    simp [operatorEq]
  · intro h
    simp [operatorBool]

/-- C13, an instance: a handle and the copy made of it. -/
theorem operatorEq_spec_witness :
    copyConstruct ⟨[some { referencingPointersNum := 1, value := ⟨[], 42⟩ }], []⟩ ⟨1, 1⟩ =
        some (⟨[some { referencingPointersNum := 2, value := ⟨[], 42⟩ }], []⟩, ⟨1, 1⟩) ∧
      operatorEq ⟨1, 1⟩ ⟨1, 1⟩ = true ∧
      (operatorEq ⟨1, 1⟩ ⟨0, 0⟩ = true ↔ (1 : Nat) = 0) := by
  have h : copyConstruct ⟨[some { referencingPointersNum := 1, value := ⟨[], 42⟩ }], []⟩
      ⟨1, 1⟩ = some (⟨[some { referencingPointersNum := 2, value := ⟨[], 42⟩ }], []⟩, ⟨1, 1⟩) := by
    decide
  exact ⟨h, (operatorEq_spec.2.2.1 _ _ _ (Or.inl h)).1, operatorEq_spec.1 ⟨1, 1⟩ ⟨0, 0⟩⟩

/-! ## Writing back what is already there -/

theorem set_eq_self_of_getElem? {α : Type} (l : List α) (i : Nat) (x : α)
    (h : l[i]? = some x) : l.set i x = l := by
  apply List.ext_getElem?
  intro j
  rw [List.getElem?_set]
  by_cases e : i = j
  · subst e
    rw [if_pos rfl, h]
    have hlt : i < l.length := by
      by_contra hge
      rw [List.getElem?_eq_none (by omega)] at h
      exact Option.noConfusion h
    rw [if_pos hlt]
  · rw [if_neg e]

theorem State.getElem?_of_handle {s : State} {i : Nat} {h : SharedPointer}
    (hi : s.handle i = some h) : s.handles[i]? = some (some h) := by
  obtain ⟨hlt, hget⟩ := State.getElem_of_handle hi
  rw [List.getElem?_eq_getElem hlt, hget]

theorem State.update_self {s : State} {i : Nat} {h : SharedPointer}
    (hi : s.handle i = some h) : s.update i (s.heap, h) = s := by
  cases s with
  | mk heap handles =>
    simp only [State.update]
    rw [set_eq_self_of_getElem? handles i (some h) (State.getElem?_of_handle hi)]

theorem reset_null (m : Heap) :
    reset m { sPointer := 0, sharedBlock := 0 } =
      some (m, { sPointer := 0, sharedBlock := 0 }) := by
  simp only [reset_eq, release_eq, Heap.deref_zero, and_self, if_true, Option.map_some']

theorem step_reset_null {s : State} {i : Nat}
    (hi : s.handle i = some { sPointer := 0, sharedBlock := 0 }) :
    step s (.reset i) = some s := by
  simp only [step, hi, reset_null, Option.bind_eq_bind, Option.some_bind, Option.map_some']
  rw [State.update_self hi]

theorem step_reset_some {s s1 : State} {i : Nat} (h : step s (.reset i) = some s1) :
    ∃ t r, s.handle i = some t ∧ release s.heap t = some r ∧
      s1 = s.update i (r.1, { sPointer := 0, sharedBlock := 0 }) := by
  simp only [step, Option.bind_eq_bind, Option.bind_eq_some, Option.map_eq_some'] at h
  obtain ⟨t, ht, r, hr, rfl⟩ := h
  obtain ⟨r1, h1, rfl⟩ := reset_some hr
  exact ⟨t, r1, ht, h1, rfl⟩

theorem step_reset_twice {s s1 : State} {i : Nat} (h : step s (.reset i) = some s1) :
    step s1 (.reset i) = some s1 := by
  obtain ⟨t, r, ht, _, rfl⟩ := step_reset_some h
  exact step_reset_null (State.handle_update_self _ _ (State.handle_lt_length ht))

/-! ## The claims, continued -/

/-- C12: `reset` on a live handle that is already empty returns and leaves the
whole state as it was: the handle is still empty, no count has changed and
nothing was deleted.  And for every handle, `reset` twice in a row is `reset`
once: when the first `reset` returns, the second returns the same state. -/
theorem reset_idempotent (s : State) (i : Nat) :
    (s.handle i = some { sPointer := 0, sharedBlock := 0 } → step s (.reset i) = some s) ∧
    (∀ s1, step s (.reset i) = some s1 →
      s1.handle i = some { sPointer := 0, sharedBlock := 0 } ∧
      step s1 (.reset i) = some s1) ∧
    run [.reset i, .reset i] s = run [.reset i] s := by
  refine ⟨step_reset_null, ?_, ?_⟩
  · intro s1 h1
    refine ⟨?_, step_reset_twice h1⟩
    obtain ⟨t, r, ht, _, rfl⟩ := step_reset_some h1
    exact State.handle_update_self _ _ (State.handle_lt_length ht)
  · cases h1 : step s (.reset i) with
    | none => simp only [run, h1, Option.none_bind]
    | some s1 =>
      simp only [run, h1, Option.some_bind, step_reset_twice h1]

/-- C12, an instance: `reset` twice on one of two owners of a block. -/
theorem reset_idempotent_witness :
    step ⟨⟨[some { referencingPointersNum := 2, value := ⟨[], 42⟩ }], []⟩,
        [some ⟨1, 1⟩, some ⟨1, 1⟩]⟩ (.reset 0) =
      some ⟨⟨[some { referencingPointersNum := 1, value := ⟨[], 42⟩ }], []⟩,
        [some ⟨0, 0⟩, some ⟨1, 1⟩]⟩ ∧
    step ⟨⟨[some { referencingPointersNum := 1, value := ⟨[], 42⟩ }], []⟩,
        [some ⟨0, 0⟩, some ⟨1, 1⟩]⟩ (.reset 0) =
      some ⟨⟨[some { referencingPointersNum := 1, value := ⟨[], 42⟩ }], []⟩,
        [some ⟨0, 0⟩, some ⟨1, 1⟩]⟩ :=
  ⟨by decide, (reset_idempotent
    ⟨⟨[some { referencingPointersNum := 1, value := ⟨[], 42⟩ }], []⟩,
      [some ⟨0, 0⟩, some ⟨1, 1⟩]⟩ 0).1 (by decide)⟩

/-! ## The only owner of a block -/

theorem State.refs_eq_one_iff {s : State} {i : Nat} {h : SharedPointer}
    (hi : s.handle i = some h) :
    s.refs h.sharedBlock = 1 ↔
      ∀ j k, s.handle j = some k → k.sharedBlock = h.sharedBlock → j = i := by
  have hr := State.refs_retire hi (s.heap, h) h.sharedBlock
  rw [if_pos rfl] at hr
  constructor
  · intro h1 j k hj hk
    by_contra hne
    have hj' : (s.retire i (s.heap, h)).handle j = some k := by
      rw [State.handle_retire_ne _ _ hne]
      exact hj
    have hpos := (State.refs_pos_iff (s.retire i (s.heap, h)) h.sharedBlock).mpr
      ⟨j, k, hj', hk⟩
    omega
  · intro huniq
    have hz : (s.retire i (s.heap, h)).refs h.sharedBlock = 0 := by
      by_contra hne
      obtain ⟨j, k, hj, hk⟩ := (State.refs_pos_iff _ _).mp (Nat.pos_of_ne_zero hne)
      obtain ⟨hj', hji⟩ := State.handle_retire_some hj
      exact hji (huniq j k hj' hk)
    omega

theorem release_of_deref {m : Heap} {this : SharedPointer} {b : SharedBlock}
    (hb : m.deref this.sharedBlock = some b) :
    release m this = some (m.released this.sharedBlock b,
      if preDecrement b.referencingPointersNum = 0
        then { sPointer := 0, sharedBlock := 0 } else this) := by
  rw [release_eq, hb]
  simp only [Heap.released]
  split <;> rfl

/-- C15: in a state where the count of every allocated block is the number of
live handles that reference it, `release` run by a live handle `h` whose block is
allocated returns, and deletes the block exactly when `h` is the only live handle
that references it.  When it deletes the block, `release` itself has set both
fields of `h` to null, and in the state it leaves no live handle references the
deleted block.  When it does not, `h` keeps its fields and the count is one
less. -/
theorem release_deletes_iff_only_owner (s : State) (i : Nat) (h : SharedPointer)
    (b : SharedBlock)
    (hinv : ∀ a c, s.heap.deref a = some c → c.referencingPointersNum = s.refs a)
    (hi : s.handle i = some h) (hb : s.heap.deref h.sharedBlock = some b) :
    ∃ r, release s.heap h = some r ∧
      (r.1.deref h.sharedBlock = none ↔
        ∀ j k, s.handle j = some k → k.sharedBlock = h.sharedBlock → j = i) ∧
      (r.1.deref h.sharedBlock = none →
        r.2 = { sPointer := 0, sharedBlock := 0 } ∧
        r.1.destructed = s.heap.destructed ++ [h.sharedBlock] ∧
        ∀ j k, (s.update i r).handle j = some k → k.sharedBlock ≠ h.sharedBlock) ∧
      (r.1.deref h.sharedBlock ≠ none →
        r.2 = h ∧ r.1.destructed = s.heap.destructed ∧
        r.1.deref h.sharedBlock =
          some { b with referencingPointersNum := b.referencingPointersNum - 1 }) := by
  have hcount := hinv _ b hb
  have hpos := State.refs_pos_of_handle hi
  have ha := Heap.ne_zero_of_deref hb
  have hdec : preDecrement b.referencingPointersNum = b.referencingPointersNum - 1 :=
    preDecrement_of_pos (by omega)
  have hone := State.refs_eq_one_iff hi
  have hnone : (s.heap.released h.sharedBlock b).deref h.sharedBlock = none ↔
      preDecrement b.referencingPointersNum = 0 := by
    rw [Heap.deref_released_self _ hb]
    split
    · rename_i hz
      exact ⟨fun _ => hz, fun _ => rfl⟩
    · rename_i hz
      exact ⟨fun hx => Option.noConfusion hx, fun hx => absurd hx hz⟩
  refine ⟨_, release_of_deref hb, ?_, ?_, ?_⟩
  · show (s.heap.released h.sharedBlock b).deref h.sharedBlock = none ↔ _
    rw [hnone, ← hone, hdec]
    omega
  · intro hdel
    have hz : preDecrement b.referencingPointersNum = 0 :=
      hnone.mp hdel
    have huniq := hone.mp (by omega)
    refine ⟨by simp only [hz, if_true], ?_, ?_⟩
    · show (s.heap.released h.sharedBlock b).destructed = _
      rw [Heap.destructed_released, if_pos hz]
    · intro j k hj hk
      rcases State.handle_update_some hj with h1 | ⟨_, h1⟩
      · have hji := huniq j k h1 hk
        subst hji
        rw [State.handle_update_self _ _ (State.handle_lt_length hi)] at hj
        have hk2 := Option.some.inj hj
        simp only [hz, if_true] at hk2
        rw [← hk2] at hk
        exact ha hk.symm
      · simp only [hz, if_true] at h1
        rw [h1] at hk
        exact ha hk.symm
  · intro hlive
    have hz : preDecrement b.referencingPointersNum ≠ 0 := fun e => hlive (hnone.mpr e)
    refine ⟨by simp only [hz, if_false], ?_, ?_⟩
    · show (s.heap.released h.sharedBlock b).destructed = _
      rw [Heap.destructed_released, if_neg hz]
    · show (s.heap.released h.sharedBlock b).deref h.sharedBlock = _
      rw [Heap.deref_released_self _ hb, if_neg hz, hdec]

/-- C15, an instance: `release` by the only handle of a block with count `1`. -/
theorem release_deletes_iff_only_owner_witness :
    ∃ r, release ⟨[some { referencingPointersNum := 1, value := ⟨[], 42⟩ }], []⟩ ⟨1, 1⟩ = some r ∧
      r.1.deref 1 = none ∧ r.2 = ⟨0, 0⟩ ∧ r.1.destructed = [1] := by
  obtain ⟨r, hr, hiff, hdel, _⟩ := release_deletes_iff_only_owner
    ⟨⟨[some { referencingPointersNum := 1, value := ⟨[], 42⟩ }], []⟩, [some ⟨1, 1⟩]⟩ 0 ⟨1, 1⟩
    { referencingPointersNum := 1, value := ⟨[], 42⟩ }
    (by
      intro a c hd
      have hle := Heap.le_length_of_deref hd
      have hne := Heap.ne_zero_of_deref hd
      have ha : a = 1 := by
        simp only [List.length_singleton] at hle
        omega
      subst ha
      have hc : c = { referencingPointersNum := 1, value := ⟨[], 42⟩ } :=
        (Option.some.inj hd).symm
      subst hc
      decide)
    (by decide) (by decide)
  have hgone : r.1.deref 1 = none := by
    apply hiff.mpr
    intro j k hj _
    have hlt := State.handle_lt_length hj
    simpa using hlt
  exact ⟨r, hr, hgone, (hdel hgone).1, (hdel hgone).2.1⟩

/-! ## Assignment between handles of one block -/

theorem Heap.getElem?_of_deref {m : Heap} {a : Nat} {b : SharedBlock}
    (h : m.deref a = some b) : m.blocks[a - 1]? = some (some b) := by
  unfold Heap.deref at h
  split at h
  · exact Option.noConfusion h
  · cases hx : m.blocks[a - 1]? with
    | none =>
      rw [hx] at h
      exact Option.noConfusion h
    | some x =>
      rw [hx] at h
      cases x with
      | none => exact Option.noConfusion h
      | some c =>
        have : c = b := Option.some.inj h
        rw [this]

theorem Heap.store_store_self {m : Heap} {a : Nat} {b : SharedBlock} (x : SharedBlock)
    (h : m.deref a = some b) : (m.store a x).store a b = m := by
  cases m with
  | mk blocks destructed =>
    simp only [Heap.store, List.set_set]
    rw [set_eq_self_of_getElem? blocks (a - 1) (some b) (Heap.getElem?_of_deref h)]

theorem preIncrement_pred {k : Nat} (h1 : 1 ≤ k) (h2 : k < UINT_MODULUS) :
    preIncrement (k - 1) = k := by
  simp only [preIncrement, UINT_MODULUS] at *
  omega

/-- Assignment between two handles with the same fields, on a block with count
at least `2`, leaves the state as it was. -/
theorem step_assign_same_fields {s : State} {dst src : Nat} {h : SharedPointer}
    {b : SharedBlock} (hdst : s.handle dst = some h) (hsrc : s.handle src = some h)
    (hb : s.heap.deref h.sharedBlock = some b)
    (h2 : 2 ≤ b.referencingPointersNum) (hlt : b.referencingPointersNum < UINT_MODULUS) :
    step s (.assign dst src) = some s := by
  have hdec : preDecrement b.referencingPointersNum = b.referencingPointersNum - 1 :=
    preDecrement_of_pos (by omega)
  have hz : preDecrement b.referencingPointersNum ≠ 0 := by rw [hdec]; omega
  have hrel : release s.heap h = some (s.heap.store h.sharedBlock
      { b with referencingPointersNum := b.referencingPointersNum - 1 }, h) := by
    have hz' : ¬ b.referencingPointersNum - 1 = 0 := by omega
    rw [release_of_deref hb]
    simp only [Heap.released, hdec, if_neg hz']
  have hd1 : (s.heap.store h.sharedBlock
      { b with referencingPointersNum := b.referencingPointersNum - 1 }).deref h.sharedBlock
      = some { b with referencingPointersNum := b.referencingPointersNum - 1 } := by
    rw [Heap.deref_store _ _ _ _ (by rw [hb]; rfl), if_pos rfl]
  have hret : retain (s.heap.store h.sharedBlock
      { b with referencingPointersNum := b.referencingPointersNum - 1 })
      { sPointer := h.sPointer, sharedBlock := h.sharedBlock } = some s.heap := by
    rw [retain_eq]
    simp only [hd1]
    rw [preIncrement_pred (by omega) hlt]
    exact congrArg some (Heap.store_store_self _ hb)
  simp only [step, hdst, hsrc, operatorAssign, assign_eq, hrel, hret, Option.bind_eq_bind,
    Option.some_bind, Option.map_some']
  exact congrArg some (State.update_self hdst)

theorem preDecrement_preIncrement {k : Nat} (h : k < UINT_MODULUS) :
    preDecrement (preIncrement k) = k := by
  simp only [preDecrement, preIncrement, UINT_MODULUS] at *
  split <;> omega

theorem State.retire_declare (s : State) (r1 r2 : Heap × SharedPointer) :
    (s.declare r1).retire s.handles.length r2 =
      { heap := r2.1, handles := s.handles ++ [none] } := by
  simp [State.declare, State.retire]

theorem step_copy_destroy {s : State} {h : SharedPointer} {b : SharedBlock}
    (hb : s.heap.deref h.sharedBlock = some b)
    (h1 : 1 ≤ b.referencingPointersNum) (hlt : b.referencingPointersNum < UINT_MODULUS) :
    step (s.declare (s.heap.store h.sharedBlock
        { b with referencingPointersNum := preIncrement b.referencingPointersNum }, h))
      (.destroy s.handles.length) =
      some { heap := s.heap, handles := s.handles ++ [none] } := by
  have hd : (s.heap.store h.sharedBlock
      { b with referencingPointersNum := preIncrement b.referencingPointersNum }).deref
      h.sharedBlock =
      some { b with referencingPointersNum := preIncrement b.referencingPointersNum } := by
    rw [Heap.deref_store _ _ _ _ (by rw [hb]; rfl), if_pos rfl]
  have hz : ¬ b.referencingPointersNum = 0 := by omega
  have hh' : (s.declare (s.heap.store h.sharedBlock
      { b with referencingPointersNum := preIncrement b.referencingPointersNum }, h)).handle
      s.handles.length = some h := State.handle_declare_length s _
  have hd' : (s.declare (s.heap.store h.sharedBlock
      { b with referencingPointersNum := preIncrement b.referencingPointersNum }, h)).heap.deref
      h.sharedBlock =
      some { b with referencingPointersNum := preIncrement b.referencingPointersNum } := hd
  have hback : (s.heap.store h.sharedBlock
      { b with referencingPointersNum := preIncrement b.referencingPointersNum }).store
      h.sharedBlock { referencingPointersNum := b.referencingPointersNum, value := b.value }
      = s.heap := Heap.store_store_self _ hb
  rw [step_destroy hh' hd']
  simp only [preDecrement_preIncrement hlt, if_neg hz, State.retire_declare]
  exact congrArg (fun m => some (State.mk m (s.handles ++ [none]))) hback

theorem step_copy_destroy_null {s : State} :
    step (s.declare (s.heap, { sPointer := 0, sharedBlock := 0 }))
      (.destroy s.handles.length) =
      some { heap := s.heap, handles := s.handles ++ [none] } := by
  simp only [step, State.handle_declare_length, destructor_eq, release_eq, Heap.deref_zero,
    and_self, if_true, Option.bind_eq_bind, Option.some_bind, Option.map_some',
    State.retire_declare]
  rfl

/-- C17 (amended): for a live handle `h` that is empty, or whose block is
allocated with a count from `1` to `2^32 - 1`, copy-constructing a handle `c`
from `h` and then running the destructor of `c` both return, and the state they
leave has the free store exactly as it was before the copy (every block with
its count and liveness, nothing deleted) and every earlier handle, `h` included,
with its fields; only the slot of `c` is added, already destroyed. -/
theorem copy_destroy_round_trip (s : State) (src : Nat) (h : SharedPointer)
    (hh : s.handle src = some h)
    (hok : (h.sPointer = 0 ∧ h.sharedBlock = 0) ∨
      ∃ b, s.heap.deref h.sharedBlock = some b ∧ 1 ≤ b.referencingPointersNum ∧
        b.referencingPointersNum < UINT_MODULUS) :
    ∃ s1 s2, step s (.copyConstruct src) = some s1 ∧
      s1.handle s.handles.length = some h ∧
      step s1 (.destroy s.handles.length) = some s2 ∧
      s2.heap = s.heap ∧ s2.handles = s.handles ++ [none] ∧
      s2.handle src = some h ∧
      run [.copyConstruct src, .destroy s.handles.length] s = some s2 := by
  have hlt := State.handle_lt_length hh
  have hsrc2 : (State.mk s.heap (s.handles ++ [none])).handle src = some h := by
    simp only [State.handle]
    rw [List.getElem?_append_left hlt]
    exact hh
  rcases hok with ⟨hp, hbk⟩ | ⟨b, hb, h1, hlt2⟩
  · have hfields : h = { sPointer := 0, sharedBlock := 0 } := by
      cases h
      simp only at hp hbk
      subst hp hbk
      rfl
    subst hfields
    have hc : step s (.copyConstruct src) =
        some (s.declare (s.heap, { sPointer := 0, sharedBlock := 0 })) := by
      simp only [step, hh, copyConstruct, construct_eq, retain_eq, Heap.deref_zero, and_self,
        if_true, Option.bind_eq_bind, Option.some_bind, Option.map_some']
    refine ⟨_, _, hc, State.handle_declare_length s _, step_copy_destroy_null, rfl, rfl,
      hsrc2, ?_⟩
    simp only [run, hc, Option.some_bind, step_copy_destroy_null]
  · have hc := step_copyConstruct hh hb
    have hd := step_copy_destroy hb h1 hlt2
    refine ⟨_, _, hc, State.handle_declare_length s _, hd, rfl, rfl, hsrc2, ?_⟩
    simp only [run, hc, Option.some_bind, hd]

/-- C17, an instance: a copy of the one handle of a block, and its destructor. -/
theorem copy_destroy_round_trip_witness :
    run [.copyConstruct 0, .destroy 1]
        ⟨⟨[some { referencingPointersNum := 1, value := ⟨[], 42⟩ }], []⟩, [some ⟨1, 1⟩]⟩ =
      some ⟨⟨[some { referencingPointersNum := 1, value := ⟨[], 42⟩ }], []⟩,
        [some ⟨1, 1⟩, none]⟩ := by
  obtain ⟨s1, s2, _, _, _, h1, h2, _, h3⟩ := copy_destroy_round_trip
    ⟨⟨[some { referencingPointersNum := 1, value := ⟨[], 42⟩ }], []⟩, [some ⟨1, 1⟩]⟩ 0 ⟨1, 1⟩
    (by decide)
    (Or.inr ⟨{ referencingPointersNum := 1, value := ⟨[], 42⟩ }, by decide, by decide,
      by decide⟩)
  have hs2 : s2 = ⟨⟨[some { referencingPointersNum := 1, value := ⟨[], 42⟩ }], []⟩,
      [some ⟨1, 1⟩, none]⟩ := by
    cases s2
    simp only at h1 h2
    subst h1 h2
    rfl
  rw [← hs2]
  exact h3

/-- C17 as stated fails when the count has wrapped to `0`: after `makeShared`
and `2^32 - 1` copies the block is allocated with count `0` and `2^32` handles on
it; one more copy takes the count to `1`, and the destructor of that copy takes it
to `0` and deletes the block, which handle `0` still points at. -/
theorem copy_destroy_deletes_at_zero :
    ∃ s1 s2 s3, run (Op.makeShared ⟨[], 42⟩ ::
        List.replicate (UINT_MODULUS - 1) (Op.copyConstruct 0)) State.init = some s1 ∧
      s1.handle 0 = some { sPointer := 1, sharedBlock := 1 } ∧
      s1.heap.deref 1 = some { referencingPointersNum := 0, value := ⟨[], 42⟩ } ∧
      s1.handles.length = UINT_MODULUS ∧
      step s1 (Op.copyConstruct 0) = some s2 ∧
      step s2 (Op.destroy UINT_MODULUS) = some s3 ∧
      s3.heap.deref 1 = none ∧ s3.heap.destructed = [1] ∧
      s3.handle 0 = some { sPointer := 1, sharedBlock := 1 } := by
  obtain ⟨s1, h1, hs1, hu1⟩ := sharedBy_build_replicate State.init ⟨[], 42⟩ (UINT_MODULUS - 1)
  obtain ⟨s2, h2, hs2, hu2⟩ :=
    sharedBy_copyConstruct hs1 (show 0 < 1 + (UINT_MODULUS - 1) by omega)
  have e0 : (1 + (UINT_MODULUS - 1)) % UINT_MODULUS = 0 := by
    simp only [UINT_MODULUS]
  have e1 : (1 + (UINT_MODULUS - 1) + 1) % UINT_MODULUS = (0 + 1) % UINT_MODULUS := by
    simp only [UINT_MODULUS]
  have e2 : State.init.handles.length + (1 + (UINT_MODULUS - 1)) = UINT_MODULUS := by
    simp only [UINT_MODULUS, State.init, List.length_nil]
  have hb1 := hs1.block
  rw [e0] at hb1
  have hb2 := hs2.block
  rw [e1] at hb2
  have hlen : s1.handles.length = UINT_MODULUS := by rw [hs1.count, e2]
  have hc := hs2.owners (1 + (UINT_MODULUS - 1)) (by omega)
  rw [e2] at hc
  obtain ⟨s3, h3, hframe, _, hzero⟩ := sharedBy_destroy hb2 (by decide) hc
  obtain ⟨hgone, hlog⟩ := hzero rfl
  have h0 : s1.handle 0 = some { sPointer := 1, sharedBlock := 1 } := hs1.owners 0 (by omega)
  have h0' : s2.handle 0 = some { sPointer := 1, sharedBlock := 1 } := hs2.owners 0 (by omega)
  refine ⟨s1, s2, s3, h1, h0, hb1, hlen, h2, h3, hgone, ?_, ?_⟩
  · rw [hlog, hu2.destructed, hu1.destructed]
    rfl
  · rw [hframe 0 (by decide)]
    exact h0'

/-! ## Assigning an empty handle -/

theorem retain_frame {m m1 : Heap} {this : SharedPointer} (h : retain m this = some m1)
    {a : Nat} (ha : a ≠ this.sharedBlock) : m1.deref a = m.deref a := by
  rcases retain_some h with ⟨_, _, e⟩ | ⟨b, hb, e⟩
  · rw [e]
  · rw [e, Heap.deref_store _ _ _ _ (by rw [hb]; rfl), if_neg ha]

theorem release_frame {m : Heap} {this : SharedPointer} {r : Heap × SharedPointer}
    (h : release m this = some r) {a : Nat} (ha : a ≠ this.sharedBlock) :
    r.1.deref a = m.deref a := by
  rcases release_some h with ⟨_, _, e⟩ | ⟨b, hb, e⟩
  · rw [e]
  · rw [e, Heap.deref_released_ne _ hb ha]

theorem construct_frame {m : Heap} {p blk : Nat} {r : Heap × SharedPointer}
    (h : construct m p blk = some r) {a : Nat} (ha : a ≠ blk) :
    r.1.deref a = m.deref a :=
  retain_frame (construct_some h).1 ha

theorem State.handle_declare_ne (s : State) (r : Heap × SharedPointer) {j : Nat}
    (hj : j ≠ s.handles.length) : (s.declare r).handle j = s.handle j := by
  by_cases hlt : j < s.handles.length
  · exact State.handle_declare_lt s r hlt
  · have h1 : (s.declare r).handles[j]? = none :=
      List.getElem?_eq_none (by simp [State.declare]; omega)
    have h2 : s.handles[j]? = none := List.getElem?_eq_none (by omega)
    simp only [State.handle, h1, h2]

/-- C19: the frame of every operation that returns.  A block that is not the
block of the handle the operation assigns, resets or destroys, nor the block of
the handle it copies, assigns or casts from (nor, for `makeShared`, the block it
allocates) has the same count and liveness after the operation as before it.
And every handle other than the one the operation constructs, assigns, resets
or destroys has the same fields after it as before. -/
theorem step_frame (s s1 : State) (op : Op) (hstep : step s op = some s1) :
    (∀ a, (∀ j, j ∈ op.operands → ∀ h, s.handle j = some h → h.sharedBlock ≠ a) →
      (∀ v, op = Op.makeShared v → a ≠ s.heap.blocks.length + 1) →
      s1.heap.deref a = s.heap.deref a) ∧
    (∀ j, j ≠ op.target s.handles.length → s1.handle j = s.handle j) := by
  cases op with
  | defaultConstruct =>
    simp only [step, defaultConstruct, Option.map_eq_some'] at hstep
    obtain ⟨r, hr, rfl⟩ := hstep
    refine ⟨fun a _ _ => ?_, fun j hj => State.handle_declare_ne s r hj⟩
    rcases retain_some (construct_some hr).1 with ⟨_, _, e⟩ | ⟨b, hb, _⟩
    · show r.1.deref a = _
      rw [e]
    · rw [Heap.deref_zero] at hb
      exact Option.noConfusion hb
  | makeShared v =>
    simp only [step, makeShared_eq, Option.map_some', Option.some.injEq] at hstep
    subst hstep
    refine ⟨fun a _ hv => ?_, fun j hj => State.handle_declare_ne s _ hj⟩
    show (s.heap.alloc { referencingPointersNum := 1, value := v }).1.deref a = _
    rw [Heap.deref_alloc, if_neg (hv v rfl)]
  | copyConstruct src =>
    simp only [step, Option.bind_eq_bind, Option.bind_eq_some, Option.map_eq_some'] at hstep
    obtain ⟨o, ho, r, hr, rfl⟩ := hstep
    refine ⟨fun a ha _ => ?_, fun j hj => State.handle_declare_ne s r hj⟩
    exact construct_frame hr (Ne.symm (ha src (by simp [Op.operands]) o ho))
  | copyConstructOther src =>
    simp only [step, Option.bind_eq_bind, Option.bind_eq_some, Option.map_eq_some'] at hstep
    obtain ⟨o, ho, r, hr, rfl⟩ := hstep
    refine ⟨fun a ha _ => ?_, fun j hj => State.handle_declare_ne s r hj⟩
    exact construct_frame hr (Ne.symm (ha src (by simp [Op.operands]) o ho))
  | assign dst src =>
    simp only [step, Option.bind_eq_bind, Option.bind_eq_some, Option.map_eq_some'] at hstep
    obtain ⟨t, ht, o, ho, r, hr, rfl⟩ := hstep
    obtain ⟨r1, h1, h2, _⟩ := assign_some hr
    refine ⟨fun a ha _ => ?_, fun j hj => State.handle_update_ne s r hj⟩
    have e1 := release_frame h1 (Ne.symm (ha dst (by simp [Op.operands]) t ht))
    have e2 : r.1.deref a = r1.1.deref a :=
      retain_frame h2 (Ne.symm (ha src (by simp [Op.operands]) o ho))
    exact e2.trans e1
  | assignOther dst src =>
    simp only [step, Option.bind_eq_bind, Option.bind_eq_some, Option.map_eq_some'] at hstep
    obtain ⟨t, ht, o, ho, r, hr, rfl⟩ := hstep
    obtain ⟨r1, h1, h2, _⟩ := assign_some hr
    refine ⟨fun a ha _ => ?_, fun j hj => State.handle_update_ne s r hj⟩
    have e1 := release_frame h1 (Ne.symm (ha dst (by simp [Op.operands]) t ht))
    have e2 : r.1.deref a = r1.1.deref a :=
      retain_frame h2 (Ne.symm (ha src (by simp [Op.operands]) o ho))
    exact e2.trans e1
  | reset k =>
    simp only [step, Option.bind_eq_bind, Option.bind_eq_some, Option.map_eq_some'] at hstep
    obtain ⟨t, ht, r, hr, rfl⟩ := hstep
    obtain ⟨r1, h1, rfl⟩ := reset_some hr
    refine ⟨fun a ha _ => ?_, fun j hj => State.handle_update_ne s _ hj⟩
    exact release_frame h1 (Ne.symm (ha k (by simp [Op.operands]) t ht))
  | sharedDynamicCast toType src =>
    simp only [step, Option.bind_eq_bind, Option.bind_eq_some, Option.map_eq_some'] at hstep
    obtain ⟨o, ho, r, hr, rfl⟩ := hstep
    obtain ⟨p, _, _, hc⟩ := sharedDynamicCast_some hr
    refine ⟨fun a ha _ => ?_, fun j hj => State.handle_declare_ne s r hj⟩
    have hne := ha src (by simp [Op.operands]) o ho
    by_cases hp : p = 0
    · rcases retain_some (construct_some hc).1 with ⟨_, _, e⟩ | ⟨b, hb, _⟩
      · show r.1.deref a = _
        rw [e]
      · simp only [hp, ne_eq, not_true_eq_false, if_false, Heap.deref_zero] at hb
        exact Option.noConfusion hb
    · rw [if_pos hp] at hc
      exact construct_frame hc (Ne.symm hne)
  | destroy k =>
    simp only [step, Option.bind_eq_bind, Option.bind_eq_some, Option.map_eq_some'] at hstep
    obtain ⟨t, ht, r, hr, rfl⟩ := hstep
    rw [destructor_eq] at hr
    refine ⟨fun a ha _ => ?_, fun j hj => State.handle_retire_ne s r hj⟩
    exact release_frame hr (Ne.symm (ha k (by simp [Op.operands]) t ht))

/-- C19, an instance: `reset` of the owner of block 1 leaves block 2 and its
handle as they were. -/
theorem step_frame_witness :
    step ⟨⟨[some { referencingPointersNum := 1, value := ⟨[], 42⟩ },
          some { referencingPointersNum := 1, value := ⟨[], 7⟩ }], []⟩,
        [some ⟨1, 1⟩, some ⟨2, 2⟩]⟩ (.reset 0) =
      some ⟨⟨[none, some { referencingPointersNum := 1, value := ⟨[], 7⟩ }], [1]⟩,
        [some ⟨0, 0⟩, some ⟨2, 2⟩]⟩ ∧
    (State.mk ⟨[none, some { referencingPointersNum := 1, value := ⟨[], 7⟩ }], [1]⟩
        [some ⟨0, 0⟩, some ⟨2, 2⟩]).heap.deref 2 =
      (State.mk ⟨[some { referencingPointersNum := 1, value := ⟨[], 42⟩ },
          some { referencingPointersNum := 1, value := ⟨[], 7⟩ }], []⟩
        [some ⟨1, 1⟩, some ⟨2, 2⟩]).heap.deref 2 ∧
    (State.mk ⟨[none, some { referencingPointersNum := 1, value := ⟨[], 7⟩ }], [1]⟩
        [some ⟨0, 0⟩, some ⟨2, 2⟩]).handle 1 =
      (State.mk ⟨[some { referencingPointersNum := 1, value := ⟨[], 42⟩ },
          some { referencingPointersNum := 1, value := ⟨[], 7⟩ }], []⟩
        [some ⟨1, 1⟩, some ⟨2, 2⟩]).handle 1 := by
  have h := step_frame
    ⟨⟨[some { referencingPointersNum := 1, value := ⟨[], 42⟩ },
        some { referencingPointersNum := 1, value := ⟨[], 7⟩ }], []⟩,
      [some ⟨1, 1⟩, some ⟨2, 2⟩]⟩
    ⟨⟨[none, some { referencingPointersNum := 1, value := ⟨[], 7⟩ }], [1]⟩,
      [some ⟨0, 0⟩, some ⟨2, 2⟩]⟩ (.reset 0) (by decide)
  refine ⟨by decide, h.1 2 ?_ ?_, h.2 1 (by decide)⟩
  · intro j hj k hk
    have hj0 : j = 0 := by simpa [Op.operands] using hj
    subst hj0
    have hk1 : k = ⟨1, 1⟩ := (Option.some.inj hk).symm
    subst hk1
    decide
  · intro v hv
    exact Op.noConfusion hv

end SharedPtr
